import Mathlib

/-!
Shallow embedding of the LED-matrix visualization engine (`main.py`) of the
applied-physics-project repository, together with theorems settling the
frozen claims about it.

Modelling conventions:
* MicroPython integers are `Int`.  Python floats in this program only ever
  hold small decimal constants and ratios of machine integers, so they are
  embedded as exact fractions (`PyF`, an unnormalized `Int` numerator /
  denominator pair with rational semantics `PyF.toQ`); no rounding anomaly
  is reachable at the magnitudes the program uses.
* Python `int(x)` truncates toward zero; `pyInt` below does the same.
* A raised exception is an `.err` value carrying the message and the global
  state at the moment of the raise (module-level state survives a raise).
* `time.ticks_ms()` reads a clock stored in the state; `time.sleep_ms(n)`
  advances it by `n`.  `stripX.write()` commits the buffer to the wire and
  has no effect on the modelled state, so it is dropped.
* `urandom.uniform(min,max)` draws are supplied by an oracle `rng : Nat → PyF`
  (the n-th draw), consumed in order.
-/

namespace Main

/-- An RGB triple, channels as machine integers. -/
abbrev Color := Int × Int × Int

/-- A Python float as an exact unnormalized fraction.  Every value the
program builds has a positive denominator (`PyF.wf`). -/
structure PyF where
  num : Int
  den : Int
deriving DecidableEq, Repr

/-- Embed a Python int into a float position. -/
def PyF.ofInt (n : Int) : PyF := ⟨n, 1⟩

def PyF.add (a b : PyF) : PyF := ⟨a.num * b.den + b.num * a.den, a.den * b.den⟩

def PyF.sub (a b : PyF) : PyF := ⟨a.num * b.den - b.num * a.den, a.den * b.den⟩

def PyF.mul (a b : PyF) : PyF := ⟨a.num * b.num, a.den * b.den⟩

/-- Python `/` (true division) on the embedded floats. -/
def PyF.div (a b : PyF) : PyF := ⟨a.num * b.den, a.den * b.num⟩

/-- Comparison `a <= b` by cross-multiplication (the valid form whenever
both denominators are positive, which `PyF.wf` guarantees). -/
def PyF.le (a b : PyF) : Bool := a.num * b.den ≤ b.num * a.den

/-- The rational value of an embedded float. -/
def PyF.toQ (x : PyF) : ℚ := (x.num : ℚ) / (x.den : ℚ)

/-- Well-formedness: positive denominator.  All floats the program builds
satisfy it. -/
def PyF.wf (x : PyF) : Prop := 0 < x.den

/-- Python `min` on two floats. -/
def pymin (a b : PyF) : PyF := if a.le b then a else b

/-- Python `max` on two machine integers. -/
def pymax (a b : Int) : Int := if a ≤ b then b else a

/-- Python `int()` applied to a float: truncation toward zero
(`Int.tdiv` is exactly truncating division). -/
def pyInt (x : PyF) : Int := x.num.tdiv x.den

-- Configuration constants of main.py.
def LED_NUM_A : Nat := 120
def LED_NUM_B : Nat := 64
def BRIGHTNESS : PyF := ⟨5, 100⟩
def HIT_POINT_BRIGHTNESS_BOOST : PyF := ⟨10, 1⟩
def HIT_DISPLAY_DURATION : Int := 500
def WAVE_LIGHT_SPREAD_DELAY : Int := 80
def WAVE_LIGHT_DURATION : Int := 120
def FADE_STEPS : Int := 10
def FADE_INTERVAL : Int := 40
def NORMAL_MODE_MIN_DELAY : PyF := .ofInt 2
def NORMAL_MODE_MAX_DELAY : PyF := .ofInt 5
def CORNER_MODE_MIN_DELAY : PyF := .ofInt 5
def CORNER_MODE_MAX_DELAY : PyF := .ofInt 10

def ROWS : Int := 16
def COLS : Int := 15
def A_ROWS : Int := (ROWS + 1) / 2
def B_ROWS : Int := ROWS / 2
def LEDS_PER_ACOL : Int := A_ROWS
def LEDS_PER_BROW : Int := (COLS + 1) / 2

/-- `scale(rgb, boost)` from main.py: global brightness scaling with a
brightness boost, each channel truncated to an integer. -/
def scale (rgb : Color) (boost : PyF := .ofInt 1) : Color :=
  let factor : PyF := pymin (BRIGHTNESS.mul boost) (.ofInt 1)
  (pyInt ((PyF.ofInt rgb.1).mul factor), pyInt ((PyF.ofInt rgb.2.1).mul factor),
    pyInt ((PyF.ofInt rgb.2.2).mul factor))

/-- The two physical LED strips. -/
inductive Strip where
  | A : Strip
  | B : Strip
deriving DecidableEq, Repr

deriving instance DecidableEq for Except

/-- The module-level mutable state of main.py: the two NeoPixel buffers, the
two fade registries (Python dicts, i.e. insertion-ordered association
lists), and the millisecond clock read by `time.ticks_ms()`. -/
structure GState where
  stripA : List Color
  stripB : List Color
  activeHits : List ((Int × Int) × (Color × Int))
  activeVerticalLeds : List ((Int × Int) × (Color × Int))
  clock : Int
deriving DecidableEq, Repr

/-- Result of running a statement of main.py: either a new state (possibly
with a value) or a raised exception carrying the message and the state at
the moment of the raise. -/
inductive PRes (α : Type) where
  | ok : α → PRes α
  | err : String → GState → PRes α
deriving DecidableEq, Repr

/-- Sequencing: an exception propagates, skipping the continuation. -/
def pbind {α β : Type} : PRes α → (α → PRes β) → PRes β
  | .ok a, f => f a
  | .err m s, _ => .err m s

/-- Python dict assignment `d[k] = v`: overwrite in place if the key is
present, else append (insertion order preserved). -/
def dictInsert {V : Type} : List ((Int × Int) × V) → (Int × Int) → V →
    List ((Int × Int) × V)
  | [], k, v => [(k, v)]
  | (k', v') :: t, k, v =>
      if k' = k then (k, v) :: t else (k', v') :: dictInsert t k v

/-- Python `del d[k]` (keys are unique by construction of `dictInsert`). -/
def dictRemove {V : Type} (d : List ((Int × Int) × V)) (k : Int × Int) :
    List ((Int × Int) × V) :=
  d.filter (fun p => p.1 ≠ k)

/-- `grid_to_led(location)` from main.py: logical grid cell to physical
strip and index, `none` for a hole, an exception for out-of-bounds input. -/
def grid_to_led (location : Int × Int) : Except String (Option (Strip × Int)) :=
  let row := location.1
  let col := location.2
  if ¬(0 ≤ row ∧ row < ROWS ∧ 0 ≤ col ∧ col < COLS) then
    .error "row/col outside matrix"
  else if row % 2 = 0 then
    -- Strip A rows
    let base := col * LEDS_PER_ACOL
    let offset := row / 2
    if col % 2 = 0 then .ok (some (.A, base + offset))
    else .ok (some (.A, base + (LEDS_PER_ACOL - 1 - offset)))
  else if col % 2 = 1 then
    -- holes
    .ok none
  else
    -- Strip B rows
    let brow := (row - 1) / 2
    let base := brow * LEDS_PER_BROW
    let offset := col / 2
    if brow % 2 = 0 then .ok (some (.B, base + offset))
    else .ok (some (.B, base + (LEDS_PER_BROW - 1 - offset)))

/-- `set_pixel(location, rgb, boost)` from main.py.  A hole is a silent
no-op; out-of-bounds propagates the mapper's exception.  (`auto_write` only
controls wire commits, which do not affect the modelled state.) -/
def set_pixel (location : Int × Int) (rgb : Color) (boost : PyF := .ofInt 1)
    (s : GState) : PRes GState :=
  match grid_to_led location with
  | .error m => .err m s
  | .ok none => .ok s
  | .ok (some (.A, index)) =>
      .ok { s with stripA := s.stripA.set index.toNat (scale rgb boost) }
  | .ok (some (.B, index)) =>
      .ok { s with stripB := s.stripB.set index.toNat (scale rgb boost) }

/-- `fill(rgb)` from main.py: set every pixel of both strips to the scaled
color (NeoPixel `fill` writes the whole fixed-size buffer). -/
def fill (rgb : Color) (s : GState) : GState :=
  let c := scale rgb
  { s with stripA := List.replicate LED_NUM_A c,
           stripB := List.replicate LED_NUM_B c }

/-- `clear()` from main.py. -/
def clear (s : GState) : GState := fill (0, 0, 0) s

/-- Observation helper: the stored color of the physical LED behind a
logical cell, if any. -/
def getPixel (s : GState) (location : Int × Int) : Option Color :=
  match grid_to_led location with
  | .ok (some (.A, index)) => s.stripA.get? index.toNat
  | .ok (some (.B, index)) => s.stripB.get? index.toNat
  | _ => none

/-- Inverse of the serpentine mapping, used to establish injectivity: which
logical cell owns a physical (strip, index) address. -/
def led_to_grid : Strip × Int → Int × Int
  | (.A, i) =>
      let c := i / LEDS_PER_ACOL
      let off := i % LEDS_PER_ACOL
      (if c % 2 = 0 then 2 * off else 2 * (LEDS_PER_ACOL - 1 - off), c)
  | (.B, i) =>
      let br := i / LEDS_PER_BROW
      let off := i % LEDS_PER_BROW
      (2 * br + 1, if br % 2 = 0 then 2 * off else 2 * (LEDS_PER_BROW - 1 - off))

/-- `start_fade_animation(now, hit_points, vertical_points)` from main.py:
register fades with hold delays (100 ms hit, 50 ms companion); dict
assignment overwrites, last write wins. -/
def start_fade_animation (now : Int) (hit_points vertical_points : List (Int × Int × Color))
    (s : GState) : GState :=
  let ah := hit_points.foldl
    (fun d p => dictInsert d (p.1, p.2.1) (p.2.2, now + 100)) s.activeHits
  let av := vertical_points.foldl
    (fun d p => dictInsert d (p.1, p.2.1) (p.2.2, now + 50)) s.activeVerticalLeds
  { s with activeHits := ah, activeVerticalLeds := av }

/-- The fade progress of an entry whose fade started `elapsed` ms ago:
`min(1.0, elapsed / (FADE_STEPS * FADE_INTERVAL))`. -/
def fadeProgress (elapsed : Int) : PyF :=
  pymin (.ofInt 1) ((PyF.ofInt elapsed).div (.ofInt (FADE_STEPS * FADE_INTERVAL)))

/-- The hit-registry loop of `process_active_points`: walk the entries in
order, rendering due fades (with the hit brightness boost) and collecting
the keys of completed fades; the registry itself is not modified here. -/
def processHitEntries (now : Int) :
    List ((Int × Int) × (Color × Int)) → GState → PRes (GState × List (Int × Int))
  | [], s => .ok (s, [])
  | (rc, (color, start_fade_time)) :: rest, s =>
    if now - start_fade_time ≥ 0 then
      let elapsed := now - start_fade_time
      let fade_progress := fadeProgress elapsed
      if PyF.le (.ofInt 1) fade_progress then
        pbind (set_pixel rc (0, 0, 0) (.ofInt 1) s) fun s1 =>
        pbind (processHitEntries now rest s1) fun p => .ok (p.1, rc :: p.2)
      else
        let fade_factor := (PyF.ofInt 1).sub fade_progress
        let boost_factor := pymin (fade_factor.mul HIT_POINT_BRIGHTNESS_BOOST) (.ofInt 1)
        let boosted_color : Color :=
          (pyInt ((PyF.ofInt color.1).mul boost_factor),
            pyInt ((PyF.ofInt color.2.1).mul boost_factor),
            pyInt ((PyF.ofInt color.2.2).mul boost_factor))
        pbind (set_pixel rc boosted_color (.ofInt 1) s) fun s1 => processHitEntries now rest s1
    else processHitEntries now rest s

/-- The companion-registry loop of `process_active_points`: as above but
without the brightness boost. -/
def processVertEntries (now : Int) :
    List ((Int × Int) × (Color × Int)) → GState → PRes (GState × List (Int × Int))
  | [], s => .ok (s, [])
  | (rc, (color, start_fade_time)) :: rest, s =>
    if now - start_fade_time ≥ 0 then
      let elapsed := now - start_fade_time
      let fade_progress := fadeProgress elapsed
      if PyF.le (.ofInt 1) fade_progress then
        pbind (set_pixel rc (0, 0, 0) (.ofInt 1) s) fun s1 =>
        pbind (processVertEntries now rest s1) fun p => .ok (p.1, rc :: p.2)
      else
        let fade_factor := (PyF.ofInt 1).sub fade_progress
        let faded_color : Color :=
          (pyInt ((PyF.ofInt color.1).mul fade_factor),
            pyInt ((PyF.ofInt color.2.1).mul fade_factor),
            pyInt ((PyF.ofInt color.2.2).mul fade_factor))
        pbind (set_pixel rc faded_color (.ofInt 1) s) fun s1 => processVertEntries now rest s1
    else processVertEntries now rest s

/-- `process_active_points()` from main.py: advance both fade registries at
the current clock, removing completed entries afterwards. -/
def process_active_points (s : GState) : PRes GState :=
  let now := s.clock
  pbind (processHitEntries now s.activeHits s) fun p1 =>
  let s1 := { p1.1 with activeHits := p1.2.foldl dictRemove p1.1.activeHits }
  pbind (processVertEntries now s1.activeVerticalLeds s1) fun p2 =>
  .ok { p2.1 with activeVerticalLeds := p2.2.foldl dictRemove p2.1.activeVerticalLeds }

/-- The `above_row` companion scan of `display_hit_effect`: walk upward
(decreasing row) until a non-hole cell is found, the grid edge is passed, or
the mapper raises.  `fuel` dominates the number of decrements; at every call
site it exceeds the possible number of iterations, so exhaustion is
unreachable. -/
def searchUpGo (col : Int) : Nat → Int → Except String (Option Int)
  | 0, _ => .ok none
  | fuel + 1, r =>
    if r < 0 then .ok none
    else match grid_to_led (r, col) with
      | .error m => .error m
      | .ok (some _) => .ok (some r)
      | .ok none => searchUpGo col fuel (r - 1)

/-- First non-hole row at or above `row - 1` in column `col`. -/
def searchUp (row col : Int) : Except String (Option Int) :=
  searchUpGo col (row.toNat + 1) (row - 1)

/-- The `below_row` companion scan of `display_hit_effect`: walk downward
until a non-hole cell, `ROWS`, or a mapper exception. -/
def searchDownGo (col : Int) : Nat → Int → Except String (Option Int)
  | 0, _ => .ok none
  | fuel + 1, r =>
    if ¬(r < ROWS) then .ok none
    else match grid_to_led (r, col) with
      | .error m => .error m
      | .ok (some _) => .ok (some r)
      | .ok none => searchDownGo col fuel (r + 1)

/-- First non-hole row at or below `row + 1` in column `col`. -/
def searchDown (row col : Int) : Except String (Option Int) :=
  searchDownGo col ((ROWS - (row + 1)).toNat + 1) (row + 1)

/-- The wave-segment aging loop shared by both wave phases: clear and drop
every segment whose `turn_off_time` has passed, keep the rest in order. -/
def ageWavePixels (row now : Int) :
    List (Int × Int) → GState → PRes (GState × List (Int × Int))
  | [], s => .ok (s, [])
  | (wave_col, off_time) :: rest, s =>
    if now - off_time ≥ 0 then
      pbind (set_pixel (row, wave_col) (0, 0, 0) (.ofInt 1) s) fun s1 =>
      ageWavePixels row now rest s1
    else
      pbind (ageWavePixels row now rest s) fun p => .ok (p.1, (wave_col, off_time) :: p.2)

/-- The lit columns of one expansion step, as recorded when the two guarded
`set_pixel` calls fire. -/
def expLitCols (col step : Int) : List Int :=
  (if col - step ≥ 0 then [col - step] else []) ++
    (if col + step ≤ COLS - 1 then [col + step] else [])

/-- The columns the reflection sweep lights while `current_col` runs from
`cc` down to `0`: every column except the hit column, in descending order. -/
def reflExpected (col : Int) : Nat → List Int
  | 0 => if (0 : Int) ≠ col then [0] else []
  | k + 1 => (if ((k : Int) + 1) ≠ col then [(k : Int) + 1] else []) ++ reflExpected col k

/-- Expansion phase of the wave (`for step in range(1, max_steps + 1)` of
`display_hit_effect`), including the early break once both directions are
out of bounds.  Returns the state, the surviving wave segments, and an
observation: the executed steps with the columns they lit. -/
def waveExpansion (row col : Int) (color : Color) :
    List Int → List (Int × Int) → GState → PRes (GState × List (Int × Int) × List (Int × List Int))
  | [], wp, s => .ok (s, wp, [])
  | step :: rest, wp, s =>
    pbind (process_active_points s) fun s1 =>
    let now := s1.clock
    let left_col := col - step
    let st2 :=
      if left_col ≥ 0 then
        pbind (set_pixel (row, left_col) color (.ofInt 1) s1) fun s2 =>
        .ok (s2, wp ++ [(left_col, now + WAVE_LIGHT_DURATION)])
      else .ok (s1, wp)
    pbind st2 fun p2 =>
    let right_col := col + step
    let st3 :=
      if right_col ≤ COLS - 1 then
        pbind (set_pixel (row, right_col) color (.ofInt 1) p2.1) fun s3 =>
        .ok (s3, p2.2 ++ [(right_col, now + WAVE_LIGHT_DURATION)])
      else .ok p2
    pbind st3 fun p3 =>
    pbind (ageWavePixels row now p3.2 p3.1) fun p4 =>
    let s5 := { p4.1 with clock := p4.1.clock + WAVE_LIGHT_SPREAD_DELAY }
    if left_col < 0 ∧ right_col > COLS - 1 then
      .ok (s5, p4.2, [(step, expLitCols col step)])
    else
      pbind (waveExpansion row col color rest p4.2 s5) fun p6 =>
      .ok (p6.1, p6.2.1, (step, expLitCols col step) :: p6.2.2)

/-- One iteration of the reflection sweep at `current_col`: light the column
unless it is the hit column, then age wave segments and sleep.  Returns the
state, wave segments, and the columns this iteration lit. -/
def reflStep (row col : Int) (color : Color) (current_col : Int)
    (wp : List (Int × Int)) (s : GState) : PRes (GState × List (Int × Int) × List Int) :=
  pbind (process_active_points s) fun s1 =>
  let now := s1.clock
  let st2 :=
    if current_col ≠ col then
      pbind (set_pixel (row, current_col) color (.ofInt 1) s1) fun s2 =>
      .ok (s2, wp ++ [(current_col, now + WAVE_LIGHT_DURATION)])
    else .ok (s1, wp)
  pbind st2 fun p2 =>
  pbind (ageWavePixels row now p2.2 p2.1) fun p3 =>
  let s4 := { p3.1 with clock := p3.1.clock + WAVE_LIGHT_SPREAD_DELAY }
  .ok (s4, p3.2, if current_col ≠ col then [current_col] else [])

/-- Reflection phase of the wave: `current_col` sweeps from `COLS - 1` down
to `0` (the `Nat` argument is the current column, so the countdown is
structural).  Returns state, wave segments, and all columns lit in order. -/
def waveReflection (row col : Int) (color : Color) :
    Nat → List (Int × Int) → GState → PRes (GState × List (Int × Int) × List Int)
  | 0, wp, s =>
    pbind (reflStep row col color 0 wp s) fun p => .ok p
  | cc + 1, wp, s =>
    pbind (reflStep row col color ((cc : Int) + 1) wp s) fun p =>
    pbind (waveReflection row col color cc p.2.1 p.1) fun p2 =>
    .ok (p2.1, p2.2.1, p.2.2 ++ p2.2.2)

/-- The finalize loop of `display_hit_effect`: force every column of the row
to black except the hit column. -/
def finalizeRow (row col : Int) : List Nat → GState → PRes GState
  | [], s => .ok s
  | c :: rest, s =>
    if (c : Int) ≠ col then
      pbind (set_pixel (row, (c : Int)) (0, 0, 0) (.ofInt 1) s) fun s1 =>
      finalizeRow row col rest s1
    else finalizeRow row col rest s

/-- The expansion step list `range(1, max_steps + 1)` of
`display_hit_effect`. -/
def expansionSteps (col : Int) : List Int :=
  (List.range (pymax (COLS - 1 - col) col).toNat).map (fun k => Int.ofNat k + 1)

/-- `display_hit_effect(row, col, color)` from main.py: companion lookup,
hit/companion lighting, fade registration, the two wave phases and the row
finalize. -/
def display_hit_effect (row col : Int) (color : Color) (s : GState) : PRes GState :=
  match searchUp row col with
  | .error m => .err m s
  | .ok aboveOpt =>
  match searchDown row col with
  | .error m => .err m s
  | .ok belowOpt =>
  let vertical_leds : List (Int × Int × Color) :=
    (aboveOpt.toList.map (fun r => (r, col, color))) ++
      (belowOpt.toList.map (fun r => (r, col, color)))
  pbind (set_pixel (row, col) color HIT_POINT_BRIGHTNESS_BOOST s) fun s1 =>
  pbind (vertical_leds.foldl
      (fun acc p => pbind acc fun st => set_pixel (p.1, p.2.1) p.2.2 (.ofInt 1) st)
      (.ok s1)) fun s2 =>
  let now := s2.clock
  let s3 := start_fade_animation now [(row, col, color)] vertical_leds s2
  pbind (waveExpansion row col color (expansionSteps col) [] s3) fun p4 =>
  pbind (waveReflection row col color (COLS - 1).toNat p4.2.1 p4.1) fun p5 =>
  pbind (finalizeRow row col (List.range COLS.toNat) p5.1) fun s6 =>
  .ok s6

/-- A value inside a hit record, as parsed from `hits.json`: an integer, a
float, or an RGB triple. -/
inductive HVal where
  | int : Int → HVal
  | float : PyF → HVal
  | rgb : Color → HVal
deriving DecidableEq, Repr

/-- Using a hit-record field where an integer coordinate is expected;
anything else is a dynamic type error. -/
def asInt : HVal → Except String Int
  | .int n => .ok n
  | _ => .error "TypeError: coordinate"

/-- Using a hit-record field where an RGB triple is expected. -/
def asColor : HVal → Except String Color
  | .rgb c => .ok c
  | _ => .error "TypeError: color"

/-- A preprocessed hit: synthetic due time and the raw row/col/color
fields. -/
abbrev ProcHit := PyF × HVal × HVal × HVal

/-- The preprocessing loop of `play_visualization`: skip events with fewer
than 4 fields, accumulate a synthetic due time (`uniform` draw times 1000)
for each retained event; Python unpacking of an event with more than 4
fields raises.  `i` is the index of the next random draw, `current_time`
the running due time. -/
def preprocessHits (rng : Nat → PyF) :
    List (List HVal) → Nat → PyF → Except String (List ProcHit)
  | [], _, _ => .ok []
  | hit :: rest, i, current_time =>
    match hit with
    | [_, row, col, color] =>
      let random_delay := (rng i).mul (.ofInt 1000)
      let ct' := current_time.add random_delay
      match preprocessHits rng rest (i + 1) ct' with
      | .error m => .error m
      | .ok l => .ok ((ct', row, col, color) :: l)
    | _ =>
      if hit.length < 4 then preprocessHits rng rest i current_time
      else .error "ValueError: too many values to unpack (expected 4)"

/-- The inner dispatch loop of `play_visualization`: while the head of the
queue is due relative to `start_ms` (with `now` fixed at the top of the
outer iteration), run its hit effect. -/
def dispatchDue (start_ms now : Int) :
    List ProcHit → GState → PRes (GState × List ProcHit)
  | [], s => .ok (s, [])
  | h :: rest, s =>
    if h.1.le (.ofInt (now - start_ms)) then
      match asInt h.2.1, asInt h.2.2.1, asColor h.2.2.2 with
      | .ok row, .ok col, .ok color =>
        pbind (display_hit_effect row col color s) fun s1 =>
        dispatchDue start_ms now rest s1
      | .error m, _, _ => .err m s
      | _, .error m, _ => .err m s
      | _, _, .error m => .err m s
    else .ok (s, h :: rest)

/-- The main loop of `play_visualization`: repeat until no events remain and
both fade registries are empty; each iteration advances the registries,
dispatches due events, and sleeps 5 ms.  `none` means the supplied fuel ran
out before the loop exited. -/
def playLoop (start_ms : Int) :
    Nat → List ProcHit → GState → Option (PRes (GState × List ProcHit))
  | 0, _, _ => none
  | fuel + 1, q, s =>
    if q = [] ∧ s.activeHits = [] ∧ s.activeVerticalLeds = [] then
      some (.ok (s, q))
    else
      let now := s.clock
      match process_active_points s with
      | .err m s' => some (.err m s')
      | .ok s1 =>
        match dispatchDue start_ms now q s1 with
        | .err m s' => some (.err m s')
        | .ok p => playLoop start_ms fuel p.2 { p.1 with clock := p.1.clock + 5 }

/-- `play_visualization(hits, is_in_corner)` from main.py.  The `rng` oracle
supplies the `urandom.uniform(min_delay, max_delay)` draws; the profile flag
only selects the bounds those draws respect, which no claim needs, so it is
carried but unused.  Returns the final state and, as an observation, the
unconsumed event queue; `none` when the fuel bound was hit first. -/
def play_visualization (hits : List (List HVal)) (rng : Nat → PyF)
    (_is_in_corner : Bool) (fuel : Nat) (s0 : GState) :
    Option (PRes (GState × List ProcHit)) :=
  let s := { s0 with activeHits := [], activeVerticalLeds := [] }
  if hits.isEmpty then some (.ok (s, []))
  else
    match preprocessHits rng hits 0 (.ofInt 0) with
    | .error m => some (.err m s)
    | .ok processed_hits =>
      let start_ms := s.clock
      match playLoop start_ms fuel processed_hits s with
      | none => none
      | some (.err m s') => some (.err m s')
      | some (.ok p) => some (.ok (clear p.1, p.2))

instance : DecidableEq (GState × List ProcHit) := instDecidableEqProd

instance : DecidableEq (PRes (GState × List ProcHit)) := instDecidableEqPRes

/-- A convenient all-dark, all-empty start state with both strips at their
configured capacities. -/
def initState : GState :=
  { stripA := List.replicate LED_NUM_A (0, 0, 0),
    stripB := List.replicate LED_NUM_B (0, 0, 0),
    activeHits := [], activeVerticalLeds := [], clock := 0 }

/-- In-bounds predicate for a grid cell. -/
def inBounds (rc : Int × Int) : Prop :=
  0 ≤ rc.1 ∧ rc.1 < ROWS ∧ 0 ≤ rc.2 ∧ rc.2 < COLS

instance : DecidablePred inBounds := fun rc => by unfold inBounds; infer_instance

/-- Both fade registries only hold in-bounds cells. -/
def keysInBounds (s : GState) : Prop :=
  (∀ e ∈ s.activeHits, inBounds e.1) ∧ (∀ e ∈ s.activeVerticalLeds, inBounds e.1)

/-- Checker: a non-hole cell maps to an address that `led_to_grid` maps
straight back, a hole cell is exactly an odd-row/odd-column cell, and the
mapper never fails in bounds. -/
def mapperCellOk (r c : Int) : Bool :=
  match grid_to_led (r, c) with
  | .ok (some x) => led_to_grid x = (r, c)
  | .ok none => r % 2 = 1 ∧ c % 2 = 1
  | .error _ => false

/-- Checker: in-bounds addresses stay within each strip's capacity. -/
def mapperIndexOk (r c : Int) : Bool :=
  match grid_to_led (r, c) with
  | .ok (some (.A, i)) => 0 ≤ i ∧ i < (LED_NUM_A : Int)
  | .ok (some (.B, i)) => 0 ≤ i ∧ i < (LED_NUM_B : Int)
  | .ok none => true
  | .error _ => false

lemma mapperCellOk_all : ∀ (r : Fin 16) (c : Fin 15),
    mapperCellOk ((r : Nat) : Int) ((c : Nat) : Int) = true := by decide

lemma mapperIndexOk_all : ∀ (r : Fin 16) (c : Fin 15),
    mapperIndexOk ((r : Nat) : Int) ((c : Nat) : Int) = true := by decide

/-- For an in-bounds non-hole cell the mapper succeeds with an address whose
round trip through `led_to_grid` recovers the cell. -/
lemma grid_to_led_roundtrip (r : Fin 16) (c : Fin 15)
    (hnh : ¬((r : Nat) % 2 = 1 ∧ (c : Nat) % 2 = 1)) :
    ∃ x, grid_to_led (((r : Nat) : Int), ((c : Nat) : Int)) = .ok (some x) ∧
      led_to_grid x = (((r : Nat) : Int), ((c : Nat) : Int)) := by
  have h := mapperCellOk_all r c
  unfold mapperCellOk at h
  rcases hg : grid_to_led (((r : Nat) : Int), ((c : Nat) : Int)) with m | o
  · rw [hg] at h; simp at h
  · rcases o with _ | x
    · rw [hg] at h
      simp only [decide_eq_true_eq] at h
      exact absurd ⟨by omega, by omega⟩ hnh
    · rw [hg] at h
      simp only [decide_eq_true_eq] at h
      exact ⟨x, rfl, h⟩

lemma PyF.wf_ofInt (n : Int) : (PyF.ofInt n).wf := by
  simp [PyF.wf, PyF.ofInt]

lemma PyF.wf_mul {a b : PyF} (ha : a.wf) (hb : b.wf) : (a.mul b).wf :=
  mul_pos ha hb

lemma PyF.wf_add {a b : PyF} (ha : a.wf) (hb : b.wf) : (a.add b).wf :=
  mul_pos ha hb

lemma PyF.wf_sub {a b : PyF} (ha : a.wf) (hb : b.wf) : (a.sub b).wf :=
  mul_pos ha hb

lemma PyF.toQ_ofInt (n : Int) : (PyF.ofInt n).toQ = (n : ℚ) := by
  simp [PyF.toQ, PyF.ofInt]

lemma PyF.den_ne {a : PyF} (ha : a.wf) : ((a.den : ℚ)) ≠ 0 := by
  exact_mod_cast ne_of_gt (by exact_mod_cast ha : (0 : ℚ) < (a.den : ℚ))

lemma PyF.toQ_mul (a b : PyF) : (a.mul b).toQ = a.toQ * b.toQ := by
  unfold PyF.toQ PyF.mul
  push_cast
  rw [div_mul_div_comm]

lemma PyF.toQ_add {a b : PyF} (ha : a.wf) (hb : b.wf) :
    (a.add b).toQ = a.toQ + b.toQ := by
  unfold PyF.toQ PyF.add
  have h1 := PyF.den_ne ha
  have h2 := PyF.den_ne hb
  push_cast
  field_simp
  try ring

lemma PyF.toQ_sub {a b : PyF} (ha : a.wf) (hb : b.wf) :
    (a.sub b).toQ = a.toQ - b.toQ := by
  unfold PyF.toQ PyF.sub
  have h1 := PyF.den_ne ha
  have h2 := PyF.den_ne hb
  push_cast
  field_simp
  try ring

lemma PyF.toQ_div {a b : PyF} (ha : a.wf) (hb : b.wf) (hbn : b.num ≠ 0) :
    (a.div b).toQ = a.toQ / b.toQ := by
  unfold PyF.toQ PyF.div
  have h1 := PyF.den_ne ha
  have h2 := PyF.den_ne hb
  have h3 : ((b.num : ℚ)) ≠ 0 := by exact_mod_cast hbn
  push_cast
  field_simp
  try ring

lemma PyF.le_iff {a b : PyF} (ha : a.wf) (hb : b.wf) :
    a.le b = true ↔ a.toQ ≤ b.toQ := by
  unfold PyF.le PyF.toQ
  rw [decide_eq_true_eq]
  rw [div_le_div_iff₀ (by exact_mod_cast ha) (by exact_mod_cast hb)]
  constructor
  · intro h; exact_mod_cast h
  · intro h; exact_mod_cast h

lemma pymin_wf {a b : PyF} (ha : a.wf) (hb : b.wf) : (pymin a b).wf := by
  unfold pymin; split <;> assumption

lemma toQ_pymin {a b : PyF} (ha : a.wf) (hb : b.wf) :
    (pymin a b).toQ = min a.toQ b.toQ := by
  unfold pymin
  rcases hle : a.le b with _ | _
  · have : ¬(a.toQ ≤ b.toQ) := by
      rw [← PyF.le_iff ha hb]; simp [hle]
    simp only [Bool.false_eq_true, if_false]
    rw [min_eq_right (le_of_not_le this)]
  · have := (PyF.le_iff ha hb).mp hle
    simp only [if_true]
    rw [min_eq_left this]

lemma pyInt_eq_floor {x : PyF} (hd : x.wf) (h0 : 0 ≤ x.toQ) : pyInt x = ⌊x.toQ⌋ := by
  have hden : (0 : ℚ) < (x.den : ℚ) := by exact_mod_cast hd
  have hnum : 0 ≤ x.num := by
    have := (div_nonneg_iff.mp h0)
    rcases this with ⟨h1, _⟩ | ⟨_, h2⟩
    · exact_mod_cast h1
    · have : (x.den : ℚ) = 0 := le_antisymm h2 (le_of_lt hden)
      exact absurd this (PyF.den_ne hd)
  unfold pyInt PyF.toQ
  rw [Int.tdiv_eq_ediv hnum (le_of_lt hd)]
  have hIZ : ((x.den.toNat : ℕ) : ℤ) = x.den := Int.toNat_of_nonneg (le_of_lt hd)
  have hcast : ((x.den.toNat : ℕ) : ℚ) = (x.den : ℚ) := by exact_mod_cast hIZ
  rw [← hcast, Rat.floor_intCast_div_natCast, hIZ]

lemma pyInt_bounds {x : PyF} {n : Int} (hd : x.wf) (h0 : 0 ≤ x.toQ)
    (hn : x.toQ ≤ (n : ℚ)) : 0 ≤ pyInt x ∧ pyInt x ≤ n := by
  rw [pyInt_eq_floor hd h0]
  refine ⟨Int.floor_nonneg.mpr h0, ?_⟩
  have := Int.floor_le_floor hn
  rwa [Int.floor_intCast] at this

lemma grid_to_led_inb : ∀ loc, inBounds loc → ∃ o, grid_to_led loc = .ok o := by
  rintro ⟨row, col⟩ h
  simp only [inBounds] at h
  unfold grid_to_led
  dsimp only
  rw [if_neg (not_not_intro ⟨h.1, h.2.1, h.2.2.1, h.2.2.2⟩)]
  split_ifs <;> exact ⟨_, rfl⟩

lemma grid_to_led_oob : ∀ loc, ¬ inBounds loc →
    grid_to_led loc = .error "row/col outside matrix" := by
  rintro ⟨row, col⟩ h
  simp only [inBounds] at h
  unfold grid_to_led
  dsimp only
  rw [if_pos h]

lemma set_pixel_oob (loc : Int × Int) (rgb : Color) (boost : PyF) (s : GState)
    (h : ¬ inBounds loc) :
    set_pixel loc rgb boost s = .err "row/col outside matrix" s := by
  unfold set_pixel
  rw [grid_to_led_oob loc h]

lemma set_pixel_inb (loc : Int × Int) (rgb : Color) (boost : PyF) (s : GState)
    (h : inBounds loc) :
    ∃ s', set_pixel loc rgb boost s = .ok s' ∧
      s'.activeHits = s.activeHits ∧ s'.activeVerticalLeds = s.activeVerticalLeds ∧
      s'.clock = s.clock ∧ s'.stripA.length = s.stripA.length ∧
      s'.stripB.length = s.stripB.length := by
  obtain ⟨o, ho⟩ := grid_to_led_inb loc h
  unfold set_pixel
  rw [ho]
  rcases o with _ | ⟨st, i⟩
  · exact ⟨s, rfl, rfl, rfl, rfl, rfl, rfl⟩
  · cases st
    · exact ⟨_, rfl, rfl, rfl, rfl, by simp, by simp⟩
    · exact ⟨_, rfl, rfl, rfl, rfl, by simp, by simp⟩

lemma processHitEntries_ok (now : Int) :
    ∀ (l : List ((Int × Int) × (Color × Int))) (s : GState),
    (∀ e ∈ l, inBounds e.1) →
    ∃ s' rem, processHitEntries now l s = .ok (s', rem) ∧
      s'.activeHits = s.activeHits ∧ s'.activeVerticalLeds = s.activeVerticalLeds ∧
      s'.clock = s.clock := by
  intro l
  induction l with
  | nil => intro s _; exact ⟨s, [], rfl, rfl, rfl, rfl⟩
  | cons e rest ih =>
    rcases e with ⟨rc, color, start_fade_time⟩
    intro s hl
    have hrc : inBounds rc := hl (rc, (color, start_fade_time)) (List.mem_cons_self _ _)
    have hrest : ∀ e ∈ rest, inBounds e.1 := fun e he => hl e (List.mem_cons_of_mem _ he)
    unfold processHitEntries
    dsimp only
    split_ifs with h1 h2
    · obtain ⟨s1, hs1, ha1, hv1, hc1, _, _⟩ := set_pixel_inb rc (0, 0, 0) (.ofInt 1) s hrc
      obtain ⟨s2, rem, hs2, ha2, hv2, hc2⟩ := ih s1 hrest
      rw [hs1]
      simp only [pbind]
      rw [hs2]
      simp only [pbind]
      exact ⟨s2, rc :: rem, rfl, by rw [ha2, ha1], by rw [hv2, hv1], by rw [hc2, hc1]⟩
    · obtain ⟨s1, hs1, ha1, hv1, hc1, _, _⟩ := set_pixel_inb rc _ (.ofInt 1) s hrc
      obtain ⟨s2, rem, hs2, ha2, hv2, hc2⟩ := ih s1 hrest
      rw [hs1]
      simp only [pbind]
      rw [hs2]
      exact ⟨s2, rem, rfl, by rw [ha2, ha1], by rw [hv2, hv1], by rw [hc2, hc1]⟩
    · exact ih s hrest

lemma processVertEntries_ok (now : Int) :
    ∀ (l : List ((Int × Int) × (Color × Int))) (s : GState),
    (∀ e ∈ l, inBounds e.1) →
    ∃ s' rem, processVertEntries now l s = .ok (s', rem) ∧
      s'.activeHits = s.activeHits ∧ s'.activeVerticalLeds = s.activeVerticalLeds ∧
      s'.clock = s.clock := by
  intro l
  induction l with
  | nil => intro s _; exact ⟨s, [], rfl, rfl, rfl, rfl⟩
  | cons e rest ih =>
    rcases e with ⟨rc, color, start_fade_time⟩
    intro s hl
    have hrc : inBounds rc := hl (rc, (color, start_fade_time)) (List.mem_cons_self _ _)
    have hrest : ∀ e ∈ rest, inBounds e.1 := fun e he => hl e (List.mem_cons_of_mem _ he)
    unfold processVertEntries
    dsimp only
    split_ifs with h1 h2
    · obtain ⟨s1, hs1, ha1, hv1, hc1, _, _⟩ := set_pixel_inb rc (0, 0, 0) (.ofInt 1) s hrc
      obtain ⟨s2, rem, hs2, ha2, hv2, hc2⟩ := ih s1 hrest
      rw [hs1]
      simp only [pbind]
      rw [hs2]
      simp only [pbind]
      exact ⟨s2, rc :: rem, rfl, by rw [ha2, ha1], by rw [hv2, hv1], by rw [hc2, hc1]⟩
    · obtain ⟨s1, hs1, ha1, hv1, hc1, _, _⟩ := set_pixel_inb rc _ (.ofInt 1) s hrc
      obtain ⟨s2, rem, hs2, ha2, hv2, hc2⟩ := ih s1 hrest
      rw [hs1]
      simp only [pbind]
      rw [hs2]
      exact ⟨s2, rem, rfl, by rw [ha2, ha1], by rw [hv2, hv1], by rw [hc2, hc1]⟩
    · exact ih s hrest

lemma mem_foldl_dictRemove {V : Type} :
    ∀ (ks : List (Int × Int)) (d : List ((Int × Int) × V)) (e : (Int × Int) × V),
    e ∈ ks.foldl dictRemove d → e ∈ d := by
  intro ks
  induction ks with
  | nil => intro d e he; exact he
  | cons k rest ih =>
    intro d e he
    have := ih (dictRemove d k) e he
    exact List.mem_of_mem_filter this

lemma process_active_points_ok (s : GState) (h : keysInBounds s) :
    ∃ s', process_active_points s = .ok s' ∧ keysInBounds s' ∧ s'.clock = s.clock := by
  obtain ⟨s1, rem1, hs1, ha1, hv1, hc1⟩ :=
    processHitEntries_ok s.clock s.activeHits s h.1
  obtain ⟨s2, rem2, hs2, ha2, hv2, hc2⟩ :=
    processVertEntries_ok s.clock
      ({ s1 with activeHits := rem1.foldl dictRemove s1.activeHits }).activeVerticalLeds
      { s1 with activeHits := rem1.foldl dictRemove s1.activeHits }
      (by
        intro e he
        simp only at he
        rw [hv1] at he
        exact h.2 e he)
  unfold process_active_points
  dsimp only
  rw [hs1]
  simp only [pbind]
  rw [hs2]
  simp only [pbind]
  refine ⟨_, rfl, ⟨?_, ?_⟩, ?_⟩
  · intro e he
    simp only at he
    rw [ha2] at he
    simp only at he
    have := mem_foldl_dictRemove rem1 s1.activeHits e he
    rw [ha1] at this
    exact h.1 e this
  · intro e he
    simp only at he
    have := mem_foldl_dictRemove rem2 s2.activeVerticalLeds e he
    rw [hv2] at this
    simp only at this
    rw [hv1] at this
    exact h.2 e this
  · simp only
    rw [hc2]
    simp only
    exact hc1

lemma ageWavePixels_ok (row now : Int) (hrow : 0 ≤ row ∧ row < ROWS) :
    ∀ (wp : List (Int × Int)) (s : GState), (∀ p ∈ wp, 0 ≤ p.1 ∧ p.1 < COLS) →
    ∃ s' wp', ageWavePixels row now wp s = .ok (s', wp') ∧
      s'.activeHits = s.activeHits ∧ s'.activeVerticalLeds = s.activeVerticalLeds ∧
      s'.clock = s.clock ∧ (∀ p ∈ wp', p ∈ wp) := by
  intro wp
  induction wp with
  | nil => intro s _; exact ⟨s, [], rfl, rfl, rfl, rfl, by simp⟩
  | cons p rest ih =>
    rcases p with ⟨wave_col, off_time⟩
    intro s hwp
    have hcol := hwp _ (List.mem_cons_self _ _)
    have hrest : ∀ q ∈ rest, 0 ≤ q.1 ∧ q.1 < COLS :=
      fun q hq => hwp q (List.mem_cons_of_mem _ hq)
    unfold ageWavePixels
    split_ifs with h1
    · obtain ⟨s1, hs1, ha1, hv1, hc1, _, _⟩ :=
        set_pixel_inb (row, wave_col) (0, 0, 0) (.ofInt 1) s ⟨hrow.1, hrow.2, hcol.1, hcol.2⟩
      obtain ⟨s2, wp', hs2, ha2, hv2, hc2, hsub⟩ := ih s1 hrest
      rw [hs1]
      simp only [pbind]
      rw [hs2]
      exact ⟨s2, wp', rfl, by rw [ha2, ha1], by rw [hv2, hv1], by rw [hc2, hc1],
        fun q hq => List.mem_cons_of_mem _ (hsub q hq)⟩
    · obtain ⟨s2, wp', hs2, ha2, hv2, hc2, hsub⟩ := ih s hrest
      rw [hs2]
      simp only [pbind]
      refine ⟨s2, (wave_col, off_time) :: wp', rfl, ha2, hv2, hc2, ?_⟩
      intro q hq
      rcases List.mem_cons.mp hq with h | h
      · rw [h]; exact List.mem_cons_self _ _
      · exact List.mem_cons_of_mem _ (hsub q h)

lemma keysInBounds_clock {s : GState} (h : keysInBounds s) (c : Int) :
    keysInBounds { s with clock := c } := h

lemma waveExpansion_full (row col : Int) (color : Color)
    (hr : 0 ≤ row ∧ row < ROWS) (hc : 0 ≤ col ∧ col < COLS) :
    ∀ (steps : List Int), (∀ st ∈ steps, 1 ≤ st ∧ st ≤ pymax (COLS - 1 - col) col) →
    ∀ (wp : List (Int × Int)) (s : GState), keysInBounds s →
    (∀ p ∈ wp, 0 ≤ p.1 ∧ p.1 < COLS) →
    ∃ s' wp', waveExpansion row col color steps wp s =
        .ok (s', wp', steps.map (fun st => (st, expLitCols col st))) ∧
      keysInBounds s' ∧ (∀ p ∈ wp', 0 ≤ p.1 ∧ p.1 < COLS) := by
  have hc' : 0 ≤ col ∧ col < 15 := by simpa [COLS] using hc
  intro steps
  induction steps with
  | nil => intro _ wp s hs hwp; exact ⟨s, wp, rfl, hs, hwp⟩
  | cons st rest ih =>
    intro hsteps wp s hs hwp
    have hst := hsteps st (List.mem_cons_self _ _)
    have hst1 : 1 ≤ st := hst.1
    have hmax : st ≤ 14 - col ∨ st ≤ col := by
      have h2 := hst.2
      unfold pymax COLS at h2
      split_ifs at h2 <;> omega
    have hrest := fun st' h => hsteps st' (List.mem_cons_of_mem _ h)
    obtain ⟨s1, hps, hks1, hck1⟩ := process_active_points_ok s hs
    unfold waveExpansion
    rw [hps]
    simp only [pbind]
    have hnobreak : ¬(col - st < 0 ∧ col + st > COLS - 1) := by
      simp only [COLS]
      rcases hmax with h | h <;> omega
    by_cases hL : col - st ≥ 0 <;> by_cases hR : col + st ≤ COLS - 1
    · have hR' : col + st ≤ 14 := by simpa [COLS] using hR
      rw [if_pos hL]
      obtain ⟨s2, hsp2, ha2, hv2, hc2, _, _⟩ :=
        set_pixel_inb (row, col - st) color (.ofInt 1) s1
          ⟨hr.1, hr.2, by omega, by simp only [COLS]; omega⟩
      rw [hsp2]
      simp only [pbind]
      rw [if_pos hR]
      obtain ⟨s3, hsp3, ha3, hv3, hc3, _, _⟩ :=
        set_pixel_inb (row, col + st) color (.ofInt 1) s2
          ⟨hr.1, hr.2, by omega, by simp only [COLS]; omega⟩
      rw [hsp3]
      simp only [pbind]
      try dsimp only
      obtain ⟨s4, wp4, hage, ha4, hv4, hc4, hsub⟩ :=
        ageWavePixels_ok row s1.clock hr
          ((wp ++ [(col - st, s1.clock + WAVE_LIGHT_DURATION)]) ++
            [(col + st, s1.clock + WAVE_LIGHT_DURATION)]) s3
          (by
            intro p hp
            rcases List.mem_append.mp hp with hp1 | hp2
            · rcases List.mem_append.mp hp1 with hp3 | hp4
              · exact hwp p hp3
              · simp only [List.mem_singleton] at hp4
                subst hp4
                exact ⟨by omega, by simp only [COLS]; omega⟩
            · simp only [List.mem_singleton] at hp2
              subst hp2
              exact ⟨by omega, by simp only [COLS]; omega⟩)
      rw [hage]
      simp only [pbind]
      rw [if_neg hnobreak]
      obtain ⟨s6, wp6, hrec, hks6, hwp6⟩ := ih hrest wp4
        { s4 with clock := s4.clock + WAVE_LIGHT_SPREAD_DELAY }
        (keysInBounds_clock (by
          constructor
          · intro e he; rw [ha4, ha3, ha2] at he; exact hks1.1 e he
          · intro e he; rw [hv4, hv3, hv2] at he; exact hks1.2 e he) _)
        (fun p hp => by
          have hsp := hsub p hp
          rcases List.mem_append.mp hsp with hp1 | hp2
          · rcases List.mem_append.mp hp1 with hp3 | hp4
            · exact hwp p hp3
            · simp only [List.mem_singleton] at hp4
              subst hp4
              exact ⟨by omega, by simp only [COLS]; omega⟩
          · simp only [List.mem_singleton] at hp2
            subst hp2
            exact ⟨by omega, by simp only [COLS]; omega⟩)
      rw [hrec]
      simp only [pbind]
      exact ⟨s6, wp6, rfl, hks6, hwp6⟩
    · have hR' : ¬(col + st ≤ 14) := by simpa [COLS] using hR
      rw [if_pos hL]
      obtain ⟨s2, hsp2, ha2, hv2, hc2, _, _⟩ :=
        set_pixel_inb (row, col - st) color (.ofInt 1) s1
          ⟨hr.1, hr.2, by omega, by simp only [COLS]; omega⟩
      rw [hsp2]
      simp only [pbind]
      rw [if_neg hR]
      simp only [pbind]
      try dsimp only
      obtain ⟨s4, wp4, hage, ha4, hv4, hc4, hsub⟩ :=
        ageWavePixels_ok row s1.clock hr
          (wp ++ [(col - st, s1.clock + WAVE_LIGHT_DURATION)]) s2
          (by
            intro p hp
            rcases List.mem_append.mp hp with hp1 | hp2
            · exact hwp p hp1
            · simp only [List.mem_singleton] at hp2
              subst hp2
              exact ⟨by omega, by simp only [COLS]; omega⟩)
      rw [hage]
      simp only [pbind]
      rw [if_neg hnobreak]
      obtain ⟨s6, wp6, hrec, hks6, hwp6⟩ := ih hrest wp4
        { s4 with clock := s4.clock + WAVE_LIGHT_SPREAD_DELAY }
        (keysInBounds_clock (by
          constructor
          · intro e he; rw [ha4, ha2] at he; exact hks1.1 e he
          · intro e he; rw [hv4, hv2] at he; exact hks1.2 e he) _)
        (fun p hp => by
          have hsp := hsub p hp
          rcases List.mem_append.mp hsp with hp1 | hp2
          · exact hwp p hp1
          · simp only [List.mem_singleton] at hp2
            subst hp2
            exact ⟨by omega, by simp only [COLS]; omega⟩)
      rw [hrec]
      simp only [pbind]
      exact ⟨s6, wp6, rfl, hks6, hwp6⟩
    · have hL' : ¬(col - st ≥ 0) := hL
      rw [if_neg hL]
      simp only [pbind]
      rw [if_pos hR]
      obtain ⟨s3, hsp3, ha3, hv3, hc3, _, _⟩ :=
        set_pixel_inb (row, col + st) color (.ofInt 1) s1
          ⟨hr.1, hr.2, by omega, by simp only [COLS]; simp only [COLS] at hR; omega⟩
      rw [hsp3]
      simp only [pbind]
      try dsimp only
      obtain ⟨s4, wp4, hage, ha4, hv4, hc4, hsub⟩ :=
        ageWavePixels_ok row s1.clock hr
          (wp ++ [(col + st, s1.clock + WAVE_LIGHT_DURATION)]) s3
          (by
            intro p hp
            rcases List.mem_append.mp hp with hp1 | hp2
            · exact hwp p hp1
            · simp only [List.mem_singleton] at hp2
              subst hp2
              exact ⟨by omega, by simp only [COLS]; simp only [COLS] at hR; omega⟩)
      rw [hage]
      simp only [pbind]
      rw [if_neg hnobreak]
      obtain ⟨s6, wp6, hrec, hks6, hwp6⟩ := ih hrest wp4
        { s4 with clock := s4.clock + WAVE_LIGHT_SPREAD_DELAY }
        (keysInBounds_clock (by
          constructor
          · intro e he; rw [ha4, ha3] at he; exact hks1.1 e he
          · intro e he; rw [hv4, hv3] at he; exact hks1.2 e he) _)
        (fun p hp => by
          have hsp := hsub p hp
          rcases List.mem_append.mp hsp with hp1 | hp2
          · exact hwp p hp1
          · simp only [List.mem_singleton] at hp2
            subst hp2
            exact ⟨by omega, by simp only [COLS]; simp only [COLS] at hR; omega⟩)
      rw [hrec]
      simp only [pbind]
      exact ⟨s6, wp6, rfl, hks6, hwp6⟩
    · exact absurd (by
        constructor
        · omega
        · simp only [COLS] at hR ⊢; omega) hnobreak

lemma reflStep_ok (row col : Int) (color : Color) (current_col : Int)
    (hr : 0 ≤ row ∧ row < ROWS) (hcc : 0 ≤ current_col ∧ current_col < COLS)
    (wp : List (Int × Int)) (s : GState) (hs : keysInBounds s)
    (hwp : ∀ p ∈ wp, 0 ≤ p.1 ∧ p.1 < COLS) :
    ∃ s' wp', reflStep row col color current_col wp s =
        .ok (s', wp', if current_col ≠ col then [current_col] else []) ∧
      keysInBounds s' ∧ (∀ p ∈ wp', 0 ≤ p.1 ∧ p.1 < COLS) := by
  obtain ⟨s1, hps, hks1, hck1⟩ := process_active_points_ok s hs
  unfold reflStep
  rw [hps]
  simp only [pbind]
  by_cases hne : current_col ≠ col
  · rw [if_pos hne]
    obtain ⟨s2, hsp, ha2, hv2, hc2, _, _⟩ :=
      set_pixel_inb (row, current_col) color (.ofInt 1) s1 ⟨hr.1, hr.2, hcc.1, hcc.2⟩
    rw [hsp]
    simp only [pbind]
    try dsimp only
    obtain ⟨s3, wp3, hage, ha3, hv3, hc3, hsub⟩ :=
      ageWavePixels_ok row s1.clock hr
        (wp ++ [(current_col, s1.clock + WAVE_LIGHT_DURATION)]) s2
        (by
          intro p hp
          rcases List.mem_append.mp hp with hp1 | hp2
          · exact hwp p hp1
          · simp only [List.mem_singleton] at hp2
            subst hp2
            exact hcc)
    rw [hage]
    simp only [pbind]
    rw [if_pos hne]
    refine ⟨_, wp3, rfl, ?_, ?_⟩
    · constructor
      · intro e he
        simp only at he
        rw [ha3, ha2] at he
        exact hks1.1 e he
      · intro e he
        simp only at he
        rw [hv3, hv2] at he
        exact hks1.2 e he
    · intro p hp
      have hmem := hsub p hp
      rcases List.mem_append.mp hmem with hp1 | hp2
      · exact hwp p hp1
      · simp only [List.mem_singleton] at hp2
        subst hp2
        exact hcc
  · rw [if_neg hne]
    simp only [pbind]
    try dsimp only
    obtain ⟨s3, wp3, hage, ha3, hv3, hc3, hsub⟩ :=
      ageWavePixels_ok row s1.clock hr wp s1 hwp
    rw [hage]
    simp only [pbind]
    rw [if_neg hne]
    refine ⟨_, wp3, rfl, ?_, fun p hp => hwp p (hsub p hp)⟩
    constructor
    · intro e he
      simp only at he
      rw [ha3] at he
      exact hks1.1 e he
    · intro e he
      simp only at he
      rw [hv3] at he
      exact hks1.2 e he


lemma waveReflection_full (row col : Int) (color : Color)
    (hr : 0 ≤ row ∧ row < ROWS) :
    ∀ (cc : Nat), ((cc : Int) < COLS) →
    ∀ (wp : List (Int × Int)) (s : GState), keysInBounds s →
    (∀ p ∈ wp, 0 ≤ p.1 ∧ p.1 < COLS) →
    ∃ s' wp', waveReflection row col color cc wp s =
        .ok (s', wp', reflExpected col cc) ∧
      keysInBounds s' ∧ (∀ p ∈ wp', 0 ≤ p.1 ∧ p.1 < COLS) := by
  intro cc
  induction cc with
  | zero =>
    intro hcc wp s hs hwp
    obtain ⟨s', wp', hstep, hks, hwp'⟩ :=
      reflStep_ok row col color 0 hr ⟨le_refl 0, hcc⟩ wp s hs hwp
    unfold waveReflection
    rw [hstep]
    simp only [pbind]
    exact ⟨s', wp', rfl, hks, hwp'⟩
  | succ k ih =>
    intro hcc wp s hs hwp
    have hcc' : ((k : Int) + 1) < COLS := by push_cast at hcc ⊢; omega
    obtain ⟨s', wp', hstep, hks, hwp'⟩ :=
      reflStep_ok row col color ((k : Int) + 1) hr ⟨by omega, hcc'⟩ wp s hs hwp
    unfold waveReflection
    rw [hstep]
    simp only [pbind]
    obtain ⟨s2, wp2, hrec, hks2, hwp2⟩ :=
      ih (by push_cast at hcc ⊢; omega) wp' s' hks hwp'
    rw [hrec]
    simp only [pbind]
    exact ⟨s2, wp2, rfl, hks2, hwp2⟩

lemma reflExpected_filter (col : Int) : ∀ (cc : Nat),
    reflExpected col cc =
      ((List.range (cc + 1)).reverse.map Int.ofNat).filter
        (fun x => decide (x ≠ col)) := by
  intro cc
  induction cc with
  | zero =>
    show reflExpected col 0 = List.filter _ (List.map _ [0])
    rw [List.map_singleton, List.filter_singleton]
    unfold reflExpected
    by_cases h0 : (0 : Int) ≠ col <;> simp [h0]
  | succ k ih =>
    have hsplit : (List.range (k + 1 + 1)).reverse = (k + 1) :: (List.range (k + 1)).reverse := by
      rw [List.range_succ, List.reverse_append]
      rfl
    rw [hsplit, List.map_cons, List.filter_cons]
    unfold reflExpected
    rw [ih]
    have hcast : (Int.ofNat (k + 1)) = (k : Int) + 1 := by
      simp [Int.ofNat_eq_natCast]
    rw [hcast]
    by_cases hk : ((k : Int) + 1) ≠ col <;> simp [hk]

lemma playLoop_exit (start_ms : Int) :
    ∀ (fuel : Nat) (q : List ProcHit) (s : GState) (out : GState × List ProcHit),
    playLoop start_ms fuel q s = some (.ok out) →
    out.2 = [] ∧ out.1.activeHits = [] ∧ out.1.activeVerticalLeds = [] := by
  intro fuel
  induction fuel with
  | zero =>
    intro q s out h
    exact absurd h (by simp [playLoop])
  | succ f ih =>
    intro q s out h
    unfold playLoop at h
    split_ifs at h with hguard
    · simp only [Option.some.injEq, PRes.ok.injEq] at h
      rw [← h]
      exact ⟨hguard.1, hguard.2.1, hguard.2.2⟩
    · cases hp : process_active_points s with
      | ok s1 =>
        rw [hp] at h
        try simp only at h
        try dsimp only at h
        cases hd : dispatchDue start_ms s.clock q s1 with
        | ok p =>
          rw [hd] at h
          try simp only at h
          try dsimp only at h
          exact ih _ _ _ h
        | err m s2 =>
          rw [hd] at h
          simp at h
      | err m s2 =>
        rw [hp] at h
        simp at h

lemma BRIGHTNESS_wf : BRIGHTNESS.wf := by
  unfold BRIGHTNESS PyF.wf
  norm_num

lemma BRIGHTNESS_toQ : BRIGHTNESS.toQ = 1 / 20 := by
  unfold BRIGHTNESS PyF.toQ
  norm_num

lemma boostQ_nonneg {boost : PyF} (hwf : boost.wf) (hnum : 0 ≤ boost.num) :
    0 ≤ boost.toQ := by
  unfold PyF.toQ
  apply div_nonneg
  · exact_mod_cast hnum
  · exact_mod_cast le_of_lt hwf

lemma inBounds_of_fin (r : Fin 16) (c : Fin 15) :
    inBounds (((r : Nat) : Int), ((c : Nat) : Int)) := by
  simp only [inBounds, ROWS, COLS]
  refine ⟨by positivity, ?_, by positivity, ?_⟩
  · exact_mod_cast r.isLt
  · exact_mod_cast c.isLt

/-- Shared bound argument: truncating a channel in `[0,255]` scaled by a
factor in `[0,1]` gives the floor of the exact product, still in
`[0,255]`. -/
lemma fade_channel (ch : Int) (hch : 0 ≤ ch ∧ ch ≤ 255) (bf : PyF) (hbf : bf.wf)
    (h0 : 0 ≤ bf.toQ) (h1 : bf.toQ ≤ 1) :
    pyInt ((PyF.ofInt ch).mul bf) = ⌊(ch : ℚ) * bf.toQ⌋ ∧
    0 ≤ pyInt ((PyF.ofInt ch).mul bf) ∧ pyInt ((PyF.ofInt ch).mul bf) ≤ 255 := by
  have hwf := PyF.wf_mul (PyF.wf_ofInt ch) hbf
  have htoQ : ((PyF.ofInt ch).mul bf).toQ = (ch : ℚ) * bf.toQ := by
    rw [PyF.toQ_mul, PyF.toQ_ofInt]
  have hnn : 0 ≤ ((PyF.ofInt ch).mul bf).toQ := by
    rw [htoQ]
    exact mul_nonneg (by exact_mod_cast hch.1) h0
  have hub : ((PyF.ofInt ch).mul bf).toQ ≤ ((255 : Int) : ℚ) := by
    rw [htoQ]
    calc (ch : ℚ) * bf.toQ ≤ (ch : ℚ) * 1 :=
          mul_le_mul_of_nonneg_left h1 (by exact_mod_cast hch.1)
      _ = (ch : ℚ) := mul_one _
      _ ≤ ((255 : Int) : ℚ) := by exact_mod_cast hch.2
  obtain ⟨hl, hu⟩ := pyInt_bounds hwf hnn hub
  exact ⟨by rw [pyInt_eq_floor hwf hnn, htoQ], hl, hu⟩

/-- C6: for channels in `[0, 255]` and a well-formed `boost ≥ 0`, `scale`
applies the factor `clamp(BRIGHTNESS * boost, 0, 1)` (floor-truncated per
channel) and always lands back in `[0, 255]`. -/
theorem scale_applies_clamped_factor (rgb : Color) (boost : PyF)
    (hwf : boost.wf) (hnum : 0 ≤ boost.num)
    (h1 : 0 ≤ rgb.1 ∧ rgb.1 ≤ 255) (h2 : 0 ≤ rgb.2.1 ∧ rgb.2.1 ≤ 255)
    (h3 : 0 ≤ rgb.2.2 ∧ rgb.2.2 ≤ 255) :
    scale rgb boost =
      (⌊(rgb.1 : ℚ) * max 0 (min (BRIGHTNESS.toQ * boost.toQ) 1)⌋,
       ⌊(rgb.2.1 : ℚ) * max 0 (min (BRIGHTNESS.toQ * boost.toQ) 1)⌋,
       ⌊(rgb.2.2 : ℚ) * max 0 (min (BRIGHTNESS.toQ * boost.toQ) 1)⌋) ∧
    (0 ≤ (scale rgb boost).1 ∧ (scale rgb boost).1 ≤ 255) ∧
    (0 ≤ (scale rgb boost).2.1 ∧ (scale rgb boost).2.1 ≤ 255) ∧
    (0 ≤ (scale rgb boost).2.2 ∧ (scale rgb boost).2.2 ≤ 255) := by
  have hBwf := BRIGHTNESS_wf
  have hfwf : (pymin (BRIGHTNESS.mul boost) (.ofInt 1)).wf :=
    pymin_wf (PyF.wf_mul hBwf hwf) (PyF.wf_ofInt 1)
  have hbQ := boostQ_nonneg hwf hnum
  have hftoQ : (pymin (BRIGHTNESS.mul boost) (.ofInt 1)).toQ =
      min (BRIGHTNESS.toQ * boost.toQ) 1 := by
    rw [toQ_pymin (PyF.wf_mul hBwf hwf) (PyF.wf_ofInt 1), PyF.toQ_mul, PyF.toQ_ofInt]
    norm_num
  have hf0 : 0 ≤ (pymin (BRIGHTNESS.mul boost) (.ofInt 1)).toQ := by
    rw [hftoQ]
    apply le_min
    · apply mul_nonneg _ hbQ
      rw [BRIGHTNESS_toQ]
      norm_num
    · norm_num
  have hf1 : (pymin (BRIGHTNESS.mul boost) (.ofInt 1)).toQ ≤ 1 := by
    rw [hftoQ]
    exact min_le_right _ _
  have hmax : max 0 (min (BRIGHTNESS.toQ * boost.toQ) 1) =
      (pymin (BRIGHTNESS.mul boost) (.ofInt 1)).toQ := by
    rw [hftoQ]
    exact max_eq_right (hftoQ ▸ hf0)
  obtain ⟨he1, hl1, hu1⟩ := fade_channel rgb.1 h1 _ hfwf hf0 hf1
  obtain ⟨he2, hl2, hu2⟩ := fade_channel rgb.2.1 h2 _ hfwf hf0 hf1
  obtain ⟨he3, hl3, hu3⟩ := fade_channel rgb.2.2 h3 _ hfwf hf0 hf1
  refine ⟨?_, ?_, ?_, ?_⟩
  · show (pyInt _, pyInt _, pyInt _) = _
    rw [he1, he2, he3, hmax]
  · exact ⟨hl1, hu1⟩
  · exact ⟨hl2, hu2⟩
  · exact ⟨hl3, hu3⟩

/-- C6 witness: the theorem applied at `(255, 128, 0)` with boost `10`. -/
theorem scale_applies_clamped_factor_witness :
    scale (255, 128, 0) (PyF.ofInt 10) =
      (⌊((255 : Int) : ℚ) * max 0 (min (BRIGHTNESS.toQ * (PyF.ofInt 10).toQ) 1)⌋,
       ⌊((128 : Int) : ℚ) * max 0 (min (BRIGHTNESS.toQ * (PyF.ofInt 10).toQ) 1)⌋,
       ⌊((0 : Int) : ℚ) * max 0 (min (BRIGHTNESS.toQ * (PyF.ofInt 10).toQ) 1)⌋) ∧
    (0 ≤ (scale (255, 128, 0) (PyF.ofInt 10)).1 ∧
      (scale (255, 128, 0) (PyF.ofInt 10)).1 ≤ 255) ∧
    (0 ≤ (scale (255, 128, 0) (PyF.ofInt 10)).2.1 ∧
      (scale (255, 128, 0) (PyF.ofInt 10)).2.1 ≤ 255) ∧
    (0 ≤ (scale (255, 128, 0) (PyF.ofInt 10)).2.2 ∧
      (scale (255, 128, 0) (PyF.ofInt 10)).2.2 ≤ 255) :=
  scale_applies_clamped_factor (255, 128, 0) (PyF.ofInt 10)
    (by unfold PyF.wf PyF.ofInt; norm_num) (by decide) (by decide) (by decide) (by decide)

/-- C7: an in-bounds cell has no LED exactly when both its row and column
are odd; every other in-bounds cell resolves to a strip address. -/
theorem grid_to_led_hole_iff : ∀ (r : Fin 16) (c : Fin 15),
    (grid_to_led (((r : Nat) : Int), ((c : Nat) : Int)) = .ok none ↔
      ((r : Nat) % 2 = 1 ∧ (c : Nat) % 2 = 1)) ∧
    (¬((r : Nat) % 2 = 1 ∧ (c : Nat) % 2 = 1) →
      ∃ x, grid_to_led (((r : Nat) : Int), ((c : Nat) : Int)) = .ok (some x)) := by
  intro r c
  constructor
  · revert r c
    decide
  · intro hnh
    obtain ⟨x, hx, _⟩ := grid_to_led_roundtrip r c hnh
    exact ⟨x, hx⟩

/-- C7 witness: at cell `(1, 1)` the mapper reports a hole; at `(0, 0)` an
address exists. -/
theorem grid_to_led_hole_iff_witness :
    grid_to_led (((((1 : Fin 16)) : Nat) : Int), ((((1 : Fin 15)) : Nat) : Int)) = .ok none ∧
    ∃ x, grid_to_led (((((0 : Fin 16)) : Nat) : Int), ((((0 : Fin 15)) : Nat) : Int)) =
      .ok (some x) :=
  ⟨(grid_to_led_hole_iff 1 1).1.mpr (by decide),
   (grid_to_led_hole_iff 0 0).2 (by decide)⟩

/-- C3: over in-bounds non-hole cells the mapper is injective: distinct
cells get distinct `(strip, index)` addresses. -/
theorem grid_to_led_injective (r1 : Fin 16) (c1 : Fin 15) (r2 : Fin 16) (c2 : Fin 15)
    (h1 : ¬((r1 : Nat) % 2 = 1 ∧ (c1 : Nat) % 2 = 1))
    (h2 : ¬((r2 : Nat) % 2 = 1 ∧ (c2 : Nat) % 2 = 1))
    (heq : grid_to_led (((r1 : Nat) : Int), ((c1 : Nat) : Int)) =
      grid_to_led (((r2 : Nat) : Int), ((c2 : Nat) : Int))) :
    r1 = r2 ∧ c1 = c2 := by
  obtain ⟨x, hx, hinvx⟩ := grid_to_led_roundtrip r1 c1 h1
  obtain ⟨y, hy, hinvy⟩ := grid_to_led_roundtrip r2 c2 h2
  rw [hx, hy] at heq
  injection heq with heq'
  injection heq' with heq2
  rw [heq2] at hinvx
  rw [hinvx] at hinvy
  injection hinvy with hr hc
  constructor
  · apply Fin.ext
    exact_mod_cast hr
  · apply Fin.ext
    exact_mod_cast hc

/-- C3 witness: the theorem applied to the pair of cells `(0,0)`, `(0,0)`. -/
theorem grid_to_led_injective_witness :
    (0 : Fin 16) = (0 : Fin 16) ∧ (0 : Fin 15) = (0 : Fin 15) :=
  grid_to_led_injective 0 0 0 0 (by decide) (by decide) rfl

/-- C9: clearing is idempotent on the pixel buffers, and a cleared grid has
every addressable pixel black. -/
theorem clear_idempotent (s : GState) :
    clear (clear s) = clear s ∧
    (clear s).stripA = List.replicate LED_NUM_A (0, 0, 0) ∧
    (clear s).stripB = List.replicate LED_NUM_B (0, 0, 0) := by
  have h : scale (0, 0, 0) = ((0, 0, 0) : Color) := by decide
  refine ⟨rfl, ?_, ?_⟩
  · show List.replicate LED_NUM_A (scale (0, 0, 0)) = _
    rw [h]
  · show List.replicate LED_NUM_B (scale (0, 0, 0)) = _
    rw [h]

/-- C10: every in-bounds cell either is a hole or maps to an index within
its strip's capacity (`< 120` on A, `< 64` on B), so `set_pixel` never
touches a buffer out of range and preserves both buffer sizes. -/
theorem grid_to_led_within_capacity : ∀ (r : Fin 16) (c : Fin 15),
    mapperIndexOk ((r : Nat) : Int) ((c : Nat) : Int) = true ∧
    ∀ (rgb : Color) (boost : PyF) (s : GState),
      s.stripA.length = LED_NUM_A → s.stripB.length = LED_NUM_B →
      ∃ s', set_pixel (((r : Nat) : Int), ((c : Nat) : Int)) rgb boost s = .ok s' ∧
        s'.stripA.length = LED_NUM_A ∧ s'.stripB.length = LED_NUM_B := by
  intro r c
  refine ⟨mapperIndexOk_all r c, ?_⟩
  intro rgb boost s hA hB
  obtain ⟨s', hset, _, _, _, hA', hB'⟩ :=
    set_pixel_inb (((r : Nat) : Int), ((c : Nat) : Int)) rgb boost s (inBounds_of_fin r c)
  exact ⟨s', hset, by rw [hA', hA], by rw [hB', hB]⟩

/-- C10 witness: the theorem applied at cell `(0, 0)` on the initial
state. -/
theorem grid_to_led_within_capacity_witness :
    ∃ s', set_pixel ((((0 : Fin 16) : Nat) : Int), (((0 : Fin 15) : Nat) : Int))
        (255, 0, 0) (PyF.ofInt 1) initState = .ok s' ∧
      s'.stripA.length = LED_NUM_A ∧ s'.stripB.length = LED_NUM_B :=
  (grid_to_led_within_capacity 0 0).2 (255, 0, 0) (PyF.ofInt 1) initState
    (by simp [initState]) (by simp [initState])

/-- C1 (amended): dispatching a hit whose row or column is out of the grid
bounds raises the mapper's `ValueError` and leaves the state untouched — in
particular no pixel is set. -/
theorem display_hit_effect_oob_raises (row col : Int) (color : Color) (s : GState)
    (h : ¬ inBounds (row, col)) :
    ∃ m, display_hit_effect row col color s = .err m s := by
  unfold display_hit_effect
  cases hu : searchUp row col with
  | error m => exact ⟨m, rfl⟩
  | ok above =>
    cases hd : searchDown row col with
    | error m => exact ⟨m, rfl⟩
    | ok below =>
      rw [set_pixel_oob (row, col) color HIT_POINT_BRIGHTNESS_BOOST s h]
      exact ⟨"row/col outside matrix", rfl⟩

/-- C1 counterexample to the original claim: the event `(16, 0)` (row out of
bounds) raises instead of being silently ignored. -/
theorem display_hit_effect_oob_counterexample :
    display_hit_effect 16 0 (255, 0, 0) initState =
      .err "row/col outside matrix" initState := by
  decide

/-- C1 witness: the amended theorem applied at row 16. -/
theorem display_hit_effect_oob_raises_witness :
    ∃ m, display_hit_effect 16 0 (255, 0, 0) initState = .err m initState :=
  display_hit_effect_oob_raises 16 0 (255, 0, 0) initState (by decide)

lemma pymax_eq_max (a b : Int) : pymax a b = max b a := by
  unfold pymax
  split_ifs with h
  · exact (max_eq_left h).symm
  · exact (max_eq_right (le_of_lt (not_le.mp h))).symm

/-- C4: from any state whose fade registries hold only in-bounds cells, the
expansion phase of an in-bounds hit executes exactly `max(col, COLS-1-col)`
steps — lighting `col - step` and `col + step` whenever in bounds, as the
per-step observation records — and the reflection phase then sweeps
`COLS-1` down to `0`, lighting every column except the hit column. -/
theorem wave_phases_exact (row col : Int) (color : Color) (s : GState)
    (hr : 0 ≤ row ∧ row < ROWS) (hc : 0 ≤ col ∧ col < COLS) (hs : keysInBounds s) :
    (expansionSteps col).length = (max col (COLS - 1 - col)).toNat ∧
    ∃ s1 wp1,
      waveExpansion row col color (expansionSteps col) [] s =
        .ok (s1, wp1, (expansionSteps col).map (fun st => (st, expLitCols col st))) ∧
      ∃ s2 wp2,
        waveReflection row col color (COLS - 1).toNat wp1 s1 =
          .ok (s2, wp2, ((List.range COLS.toNat).reverse.map Int.ofNat).filter
            (fun x => decide (x ≠ col))) := by
  have hc' : 0 ≤ col ∧ col < 15 := by simpa [COLS] using hc
  have hpm0 : 0 ≤ pymax (COLS - 1 - col) col := by
    unfold pymax COLS
    split_ifs <;> omega
  have hcast : ((pymax (COLS - 1 - col) col).toNat : Int) = pymax (COLS - 1 - col) col :=
    Int.toNat_of_nonneg hpm0
  constructor
  · unfold expansionSteps
    rw [List.length_map, List.length_range, pymax_eq_max, max_comm]
  · have hsteps : ∀ st ∈ expansionSteps col, 1 ≤ st ∧ st ≤ pymax (COLS - 1 - col) col := by
      intro st hst
      unfold expansionSteps at hst
      simp only [List.mem_map, List.mem_range] at hst
      obtain ⟨k, hk, rfl⟩ := hst
      simp only [Int.ofNat_eq_natCast]
      constructor
      · omega
      · omega
    obtain ⟨s1, wp1, hexp, hks1, hwp1⟩ :=
      waveExpansion_full row col color hr hc (expansionSteps col) hsteps [] s hs (by simp)
    refine ⟨s1, wp1, hexp, ?_⟩
    have hccI : (((COLS - 1).toNat : Nat) : Int) < COLS := by decide
    obtain ⟨s2, wp2, hrefl, _, _⟩ :=
      waveReflection_full row col color hr ((COLS - 1).toNat) hccI wp1 s1 hks1 hwp1
    refine ⟨s2, wp2, ?_⟩
    rw [hrefl, reflExpected_filter col ((COLS - 1).toNat),
      show (COLS - 1).toNat + 1 = COLS.toNat from by decide]

/-- C4 witness: the theorem applied to a hit at `(0, 0)` from the initial
state. -/
theorem wave_phases_exact_witness :
    (expansionSteps 0).length = (max 0 (COLS - 1 - 0)).toNat ∧
    ∃ s1 wp1,
      waveExpansion 0 0 (255, 0, 0) (expansionSteps 0) [] initState =
        .ok (s1, wp1, (expansionSteps 0).map (fun st => (st, expLitCols 0 st))) ∧
      ∃ s2 wp2,
        waveReflection 0 0 (255, 0, 0) (COLS - 1).toNat wp1 s1 =
          .ok (s2, wp2, ((List.range COLS.toNat).reverse.map Int.ofNat).filter
            (fun x => decide (x ≠ 0))) :=
  wave_phases_exact 0 0 (255, 0, 0) initState (by decide) (by decide)
    (by constructor <;> intro e he <;> simp [initState] at he)

/-- C2 (amended): for every non-empty event list, whenever
`play_visualization` returns normally it does so only once no queued events
remain and both fade registries are empty, and its final act clears the
whole grid to black.  (For the empty list the function returns before the
loop and clears nothing — see the counterexample.) -/
theorem play_visualization_exit_state (hits : List (List HVal)) (rng : Nat → PyF)
    (is_in_corner : Bool) (fuel : Nat) (s0 : GState) (out : GState × List ProcHit)
    (hne : hits ≠ [])
    (hres : play_visualization hits rng is_in_corner fuel s0 = some (.ok out)) :
    out.2 = [] ∧ out.1.activeHits = [] ∧ out.1.activeVerticalLeds = [] ∧
    out.1.stripA = List.replicate LED_NUM_A (0, 0, 0) ∧
    out.1.stripB = List.replicate LED_NUM_B (0, 0, 0) := by
  cases hits with
  | nil => exact absurd rfl hne
  | cons h0 t0 =>
    unfold play_visualization at hres
    rw [show (h0 :: t0).isEmpty = false from rfl] at hres
    simp only [Bool.false_eq_true, if_false] at hres
    cases hpre : preprocessHits rng (h0 :: t0) 0 (.ofInt 0) with
    | error m =>
      rw [hpre] at hres
      simp at hres
    | ok processed =>
      rw [hpre] at hres
      simp only at hres
      cases hpl : playLoop ({ s0 with activeHits := [], activeVerticalLeds := [] }).clock
          fuel processed { s0 with activeHits := [], activeVerticalLeds := [] } with
      | none =>
        rw [hpl] at hres
        simp at hres
      | some r =>
        cases r with
        | err m s2 =>
          rw [hpl] at hres
          simp at hres
        | ok p =>
          rw [hpl] at hres
          simp only [Option.some.injEq, PRes.ok.injEq] at hres
          obtain ⟨hq, hah, hav⟩ := playLoop_exit _ fuel processed _ p hpl
          have hscale : scale (0, 0, 0) = ((0, 0, 0) : Color) := by decide
          rw [← hres]
          refine ⟨hq, hah, hav, ?_, ?_⟩
          · show List.replicate LED_NUM_A (scale (0, 0, 0)) = _
            rw [hscale]
          · show List.replicate LED_NUM_B (scale (0, 0, 0)) = _
            rw [hscale]

/-- C2 counterexample to the original claim: on the empty event list the
function returns before the loop and the grid is left untouched (here: a
lit strip A stays lit, so the grid is not cleared to black). -/
theorem play_visualization_empty_not_cleared :
    play_visualization [] (fun _ => .ofInt 0) false 3
        (GState.mk (List.replicate LED_NUM_A (9, 9, 9))
          (List.replicate LED_NUM_B (0, 0, 0)) [] [] 0) =
      some (.ok (GState.mk (List.replicate LED_NUM_A (9, 9, 9))
          (List.replicate LED_NUM_B (0, 0, 0)) [] [] 0, [])) ∧
    List.replicate LED_NUM_A ((9, 9, 9) : Color) ≠
      List.replicate LED_NUM_A ((0, 0, 0) : Color) := by
  constructor
  · decide
  · decide

/-- C2 witness: a full one-hit show, run to completion, ends with an empty
queue, empty registries and an all-black grid. -/
theorem play_visualization_exit_state_witness :
    ((GState.mk (List.replicate LED_NUM_A (0, 0, 0)) (List.replicate LED_NUM_B (0, 0, 0))
        [] [] 2325, ([] : List ProcHit))).2 = [] ∧
    ((GState.mk (List.replicate LED_NUM_A (0, 0, 0)) (List.replicate LED_NUM_B (0, 0, 0))
        [] [] 2325, ([] : List ProcHit))).1.activeHits = [] ∧
    ((GState.mk (List.replicate LED_NUM_A (0, 0, 0)) (List.replicate LED_NUM_B (0, 0, 0))
        [] [] 2325, ([] : List ProcHit))).1.activeVerticalLeds = [] ∧
    ((GState.mk (List.replicate LED_NUM_A (0, 0, 0)) (List.replicate LED_NUM_B (0, 0, 0))
        [] [] 2325, ([] : List ProcHit))).1.stripA = List.replicate LED_NUM_A (0, 0, 0) ∧
    ((GState.mk (List.replicate LED_NUM_A (0, 0, 0)) (List.replicate LED_NUM_B (0, 0, 0))
        [] [] 2325, ([] : List ProcHit))).1.stripB = List.replicate LED_NUM_B (0, 0, 0) :=
  play_visualization_exit_state
    [[.float (.ofInt 0), .int 0, .int 0, .rgb (255, 0, 0)]] (fun _ => .ofInt 0)
    false 3 initState
    (GState.mk (List.replicate LED_NUM_A (0, 0, 0)) (List.replicate LED_NUM_B (0, 0, 0))
      [] [] 2325, [])
    (by decide) (by decide)

lemma fadeDiv_wf (e : Int) : ((PyF.ofInt e).div (.ofInt (FADE_STEPS * FADE_INTERVAL))).wf := by
  unfold PyF.div PyF.ofInt PyF.wf FADE_STEPS FADE_INTERVAL
  norm_num

lemma fadeProgress_wf (e : Int) : (fadeProgress e).wf :=
  pymin_wf (PyF.wf_ofInt 1) (fadeDiv_wf e)

lemma fadeProgress_toQ (e : Int) :
    (fadeProgress e).toQ =
      min 1 ((e : ℚ) / ((FADE_STEPS * FADE_INTERVAL : Int) : ℚ)) := by
  unfold fadeProgress
  rw [toQ_pymin (PyF.wf_ofInt 1) (fadeDiv_wf e),
    PyF.toQ_div (PyF.wf_ofInt e) (PyF.wf_ofInt _)
      (by unfold PyF.ofInt FADE_STEPS FADE_INTERVAL; norm_num)]
  simp only [PyF.toQ_ofInt]
  norm_num

lemma fadeDenom_toQ : ((FADE_STEPS * FADE_INTERVAL : Int) : ℚ) = 400 := by
  norm_num [FADE_STEPS, FADE_INTERVAL]

lemma BOOST_wf : HIT_POINT_BRIGHTNESS_BOOST.wf := by
  unfold HIT_POINT_BRIGHTNESS_BOOST PyF.wf
  norm_num

lemma BOOST_toQ : HIT_POINT_BRIGHTNESS_BOOST.toQ = 10 := by
  unfold HIT_POINT_BRIGHTNESS_BOOST PyF.toQ
  norm_num

/-- The condition of the fade-completion branch is exactly `progress ≥ 1`. -/
lemma fade_done_iff (e : Int) :
    (PyF.le (.ofInt 1) (fadeProgress e) = true) ↔
      1 ≤ min 1 ((e : ℚ) / ((FADE_STEPS * FADE_INTERVAL : Int) : ℚ)) := by
  rw [PyF.le_iff (PyF.wf_ofInt 1) (fadeProgress_wf e), PyF.toQ_ofInt, fadeProgress_toQ]
  norm_num

lemma set_pixel_write (r : Fin 16) (c : Fin 15)
    (hnh : ¬((r : Nat) % 2 = 1 ∧ (c : Nat) % 2 = 1)) (rgb : Color) (boost : PyF)
    (s : GState) (hA : s.stripA.length = LED_NUM_A) (hB : s.stripB.length = LED_NUM_B) :
    ∃ s', set_pixel (((r : Nat) : Int), ((c : Nat) : Int)) rgb boost s = .ok s' ∧
      getPixel s' (((r : Nat) : Int), ((c : Nat) : Int)) = some (scale rgb boost) ∧
      s'.activeHits = s.activeHits ∧ s'.activeVerticalLeds = s.activeVerticalLeds ∧
      s'.clock = s.clock ∧ s'.stripA.length = LED_NUM_A ∧ s'.stripB.length = LED_NUM_B := by
  obtain ⟨x, hx, _⟩ := grid_to_led_roundtrip r c hnh
  have hidx := mapperIndexOk_all r c
  unfold mapperIndexOk at hidx
  rw [hx] at hidx
  rcases x with ⟨st, i⟩
  cases st
  · simp only [decide_eq_true_eq] at hidx
    have hlt : i.toNat < s.stripA.length := by
      rw [hA]
      have h2 : i < ((LED_NUM_A : Nat) : Int) := hidx.2
      have h1 : 0 ≤ i := hidx.1
      omega
    unfold set_pixel
    rw [hx]
    refine ⟨_, rfl, ?_, rfl, rfl, rfl, ?_, hB⟩
    · unfold getPixel
      rw [hx]
      simp only
      rw [List.get?_eq_getElem?, List.getElem?_set_eq_of_lt _ hlt]
    · simp [hA]
  · simp only [decide_eq_true_eq] at hidx
    have hlt : i.toNat < s.stripB.length := by
      rw [hB]
      have h2 : i < ((LED_NUM_B : Nat) : Int) := hidx.2
      have h1 : 0 ≤ i := hidx.1
      omega
    unfold set_pixel
    rw [hx]
    refine ⟨_, rfl, ?_, rfl, rfl, rfl, hA, ?_⟩
    · unfold getPixel
      rw [hx]
      simp only
      rw [List.get?_eq_getElem?, List.getElem?_set_eq_of_lt _ hlt]
    · simp [hB]

/-- C5: a registry tick on a due fade entry (base channels in `[0,255]`, on
a real LED cell) blacks the cell and removes the entry exactly when the
fade progress reaches `1`; below `1` it keeps the entry and renders
`color * min((1-progress) * HIT_BOOST, 1)` for hit entries and
`color * (1-progress)` for companion entries, with every rendered channel
in `[0, 255]`. -/
theorem process_tick_fade_semantics (sa sb : List Color)
    (hA : sa.length = LED_NUM_A) (hB : sb.length = LED_NUM_B)
    (r : Fin 16) (c : Fin 15) (hnh : ¬((r : Nat) % 2 = 1 ∧ (c : Nat) % 2 = 1))
    (color : Color)
    (h1 : 0 ≤ color.1 ∧ color.1 ≤ 255) (h2 : 0 ≤ color.2.1 ∧ color.2.1 ≤ 255)
    (h3 : 0 ≤ color.2.2 ∧ color.2.2 ≤ 255)
    (start_fade_time now : Int) (hel : 0 ≤ now - start_fade_time) :
    (1 ≤ min 1 (((now - start_fade_time : Int) : ℚ) / ((FADE_STEPS * FADE_INTERVAL : Int) : ℚ)) →
      ∃ s', process_active_points (GState.mk sa sb
          [(((((r : Nat) : Int)), (((c : Nat) : Int))), (color, start_fade_time))] [] now) =
          .ok s' ∧
        s'.activeHits = [] ∧
        getPixel s' (((r : Nat) : Int), ((c : Nat) : Int)) = some (0, 0, 0)) ∧
    (min 1 (((now - start_fade_time : Int) : ℚ) / ((FADE_STEPS * FADE_INTERVAL : Int) : ℚ)) < 1 →
      ∃ s' bc, process_active_points (GState.mk sa sb
          [(((((r : Nat) : Int)), (((c : Nat) : Int))), (color, start_fade_time))] [] now) =
          .ok s' ∧
        s'.activeHits = [(((((r : Nat) : Int)), (((c : Nat) : Int))), (color, start_fade_time))] ∧
        getPixel s' (((r : Nat) : Int), ((c : Nat) : Int)) = some (scale bc (.ofInt 1)) ∧
        bc = (⌊(color.1 : ℚ) * min ((1 - min 1 (((now - start_fade_time : Int) : ℚ) /
                ((FADE_STEPS * FADE_INTERVAL : Int) : ℚ))) * HIT_POINT_BRIGHTNESS_BOOST.toQ) 1⌋,
              ⌊(color.2.1 : ℚ) * min ((1 - min 1 (((now - start_fade_time : Int) : ℚ) /
                ((FADE_STEPS * FADE_INTERVAL : Int) : ℚ))) * HIT_POINT_BRIGHTNESS_BOOST.toQ) 1⌋,
              ⌊(color.2.2 : ℚ) * min ((1 - min 1 (((now - start_fade_time : Int) : ℚ) /
                ((FADE_STEPS * FADE_INTERVAL : Int) : ℚ))) * HIT_POINT_BRIGHTNESS_BOOST.toQ) 1⌋) ∧
        (0 ≤ bc.1 ∧ bc.1 ≤ 255) ∧ (0 ≤ bc.2.1 ∧ bc.2.1 ≤ 255) ∧
        (0 ≤ bc.2.2 ∧ bc.2.2 ≤ 255)) ∧
    (1 ≤ min 1 (((now - start_fade_time : Int) : ℚ) / ((FADE_STEPS * FADE_INTERVAL : Int) : ℚ)) →
      ∃ s', process_active_points (GState.mk sa sb []
          [(((((r : Nat) : Int)), (((c : Nat) : Int))), (color, start_fade_time))] now) =
          .ok s' ∧
        s'.activeVerticalLeds = [] ∧
        getPixel s' (((r : Nat) : Int), ((c : Nat) : Int)) = some (0, 0, 0)) ∧
    (min 1 (((now - start_fade_time : Int) : ℚ) / ((FADE_STEPS * FADE_INTERVAL : Int) : ℚ)) < 1 →
      ∃ s' fc, process_active_points (GState.mk sa sb []
          [(((((r : Nat) : Int)), (((c : Nat) : Int))), (color, start_fade_time))] now) =
          .ok s' ∧
        s'.activeVerticalLeds =
          [(((((r : Nat) : Int)), (((c : Nat) : Int))), (color, start_fade_time))] ∧
        getPixel s' (((r : Nat) : Int), ((c : Nat) : Int)) = some (scale fc (.ofInt 1)) ∧
        fc = (⌊(color.1 : ℚ) * (1 - min 1 (((now - start_fade_time : Int) : ℚ) /
                ((FADE_STEPS * FADE_INTERVAL : Int) : ℚ)))⌋,
              ⌊(color.2.1 : ℚ) * (1 - min 1 (((now - start_fade_time : Int) : ℚ) /
                ((FADE_STEPS * FADE_INTERVAL : Int) : ℚ)))⌋,
              ⌊(color.2.2 : ℚ) * (1 - min 1 (((now - start_fade_time : Int) : ℚ) /
                ((FADE_STEPS * FADE_INTERVAL : Int) : ℚ)))⌋) ∧
        (0 ≤ fc.1 ∧ fc.1 ≤ 255) ∧ (0 ≤ fc.2.1 ∧ fc.2.1 ≤ 255) ∧
        (0 ≤ fc.2.2 ∧ fc.2.2 ≤ 255)) := by
  have hscale0 : scale (0, 0, 0) (.ofInt 1) = ((0, 0, 0) : Color) := by decide
  have hprog1 : min 1 (((now - start_fade_time : Int) : ℚ) /
      ((FADE_STEPS * FADE_INTERVAL : Int) : ℚ)) ≤ 1 := min_le_left _ _
  have hprog0 : 0 ≤ min 1 (((now - start_fade_time : Int) : ℚ) /
      ((FADE_STEPS * FADE_INTERVAL : Int) : ℚ)) := by
    apply le_min
    · norm_num
    · apply div_nonneg
      · exact_mod_cast hel
      · rw [fadeDenom_toQ]; norm_num
  refine ⟨?_, ?_, ?_, ?_⟩
  · -- hit entry, fade complete
    intro hprog
    have hcond : PyF.le (.ofInt 1) (fadeProgress (now - start_fade_time)) = true :=
      (fade_done_iff _).mpr hprog
    unfold process_active_points
    try dsimp only
    unfold processHitEntries
    try dsimp only
    rw [if_pos (show now - start_fade_time ≥ 0 from hel), if_pos hcond]
    obtain ⟨s1, hset, hget, ha1, hv1, hc1, hA1, hB1⟩ :=
      set_pixel_write r c hnh (0, 0, 0) (.ofInt 1)
        (GState.mk sa sb
          [(((((r : Nat) : Int)), (((c : Nat) : Int))), (color, start_fade_time))] [] now)
        hA hB
    rw [hset]
    simp only [pbind]
    rw [show ∀ st, processHitEntries now [] st = .ok (st, []) from fun _ => rfl]
    simp only [pbind]
    try dsimp only
    have hrem : List.foldl dictRemove s1.activeHits
        [(((r : Nat) : Int), ((c : Nat) : Int))] = [] := by
      rw [ha1]
      simp [dictRemove]
    rw [hrem]
    rw [show s1.activeVerticalLeds = ([] : List ((Int × Int) × (Color × Int))) from hv1]
    rw [show ∀ st, processVertEntries now [] st = .ok (st, []) from fun _ => rfl]
    simp only [pbind]
    refine ⟨_, rfl, rfl, ?_⟩
    rw [← hscale0]
    exact hget
  · -- hit entry, still fading
    intro hprog
    have hcond : ¬(PyF.le (.ofInt 1) (fadeProgress (now - start_fade_time)) = true) :=
      fun hcd => absurd ((fade_done_iff _).mp hcd) (not_le.mpr hprog)
    have hbf_wf : (pymin (((PyF.ofInt 1).sub
        (fadeProgress (now - start_fade_time))).mul HIT_POINT_BRIGHTNESS_BOOST)
        (.ofInt 1)).wf :=
      pymin_wf (PyF.wf_mul (PyF.wf_sub (PyF.wf_ofInt 1)
        (fadeProgress_wf _)) BOOST_wf) (PyF.wf_ofInt 1)
    have hbf_toQ : (pymin (((PyF.ofInt 1).sub
        (fadeProgress (now - start_fade_time))).mul HIT_POINT_BRIGHTNESS_BOOST)
        (.ofInt 1)).toQ =
        min ((1 - min 1 (((now - start_fade_time : Int) : ℚ) /
          ((FADE_STEPS * FADE_INTERVAL : Int) : ℚ))) * HIT_POINT_BRIGHTNESS_BOOST.toQ) 1 := by
      rw [toQ_pymin (PyF.wf_mul (PyF.wf_sub (PyF.wf_ofInt 1)
          (fadeProgress_wf _)) BOOST_wf) (PyF.wf_ofInt 1),
        PyF.toQ_mul, PyF.toQ_sub (PyF.wf_ofInt 1) (fadeProgress_wf _), fadeProgress_toQ]
      simp only [PyF.toQ_ofInt]
      norm_num
    have hbf0 : 0 ≤ (pymin (((PyF.ofInt 1).sub
        (fadeProgress (now - start_fade_time))).mul HIT_POINT_BRIGHTNESS_BOOST)
        (.ofInt 1)).toQ := by
      rw [hbf_toQ]
      apply le_min
      · apply mul_nonneg
        · linarith
        · rw [BOOST_toQ]; norm_num
      · norm_num
    have hbf1 : (pymin (((PyF.ofInt 1).sub
        (fadeProgress (now - start_fade_time))).mul HIT_POINT_BRIGHTNESS_BOOST)
        (.ofInt 1)).toQ ≤ 1 := by
      rw [hbf_toQ]
      exact min_le_right _ _
    obtain ⟨he1, hl1, hu1⟩ := fade_channel color.1 h1 _ hbf_wf hbf0 hbf1
    obtain ⟨he2, hl2, hu2⟩ := fade_channel color.2.1 h2 _ hbf_wf hbf0 hbf1
    obtain ⟨he3, hl3, hu3⟩ := fade_channel color.2.2 h3 _ hbf_wf hbf0 hbf1
    unfold process_active_points
    try dsimp only
    unfold processHitEntries
    try dsimp only
    rw [if_pos (show now - start_fade_time ≥ 0 from hel), if_neg hcond]
    obtain ⟨s1, hset, hget, ha1, hv1, hc1, hA1, hB1⟩ :=
      set_pixel_write r c hnh
        (pyInt ((PyF.ofInt color.1).mul (pymin (((PyF.ofInt 1).sub
            (fadeProgress (now - start_fade_time))).mul HIT_POINT_BRIGHTNESS_BOOST)
            (.ofInt 1))),
         pyInt ((PyF.ofInt color.2.1).mul (pymin (((PyF.ofInt 1).sub
            (fadeProgress (now - start_fade_time))).mul HIT_POINT_BRIGHTNESS_BOOST)
            (.ofInt 1))),
         pyInt ((PyF.ofInt color.2.2).mul (pymin (((PyF.ofInt 1).sub
            (fadeProgress (now - start_fade_time))).mul HIT_POINT_BRIGHTNESS_BOOST)
            (.ofInt 1))))
        (.ofInt 1)
        (GState.mk sa sb
          [(((((r : Nat) : Int)), (((c : Nat) : Int))), (color, start_fade_time))] [] now)
        hA hB
    rw [hset]
    simp only [pbind]
    rw [show ∀ st, processHitEntries now [] st = .ok (st, []) from fun _ => rfl]
    simp only [pbind]
    try dsimp only
    rw [show s1.activeVerticalLeds = ([] : List ((Int × Int) × (Color × Int))) from hv1]
    rw [show ∀ st, processVertEntries now [] st = .ok (st, []) from fun _ => rfl]
    simp only [pbind]
    try dsimp only
    refine ⟨_,
      (pyInt ((PyF.ofInt color.1).mul (pymin (((PyF.ofInt 1).sub
          (fadeProgress (now - start_fade_time))).mul HIT_POINT_BRIGHTNESS_BOOST)
          (.ofInt 1))),
       pyInt ((PyF.ofInt color.2.1).mul (pymin (((PyF.ofInt 1).sub
          (fadeProgress (now - start_fade_time))).mul HIT_POINT_BRIGHTNESS_BOOST)
          (.ofInt 1))),
       pyInt ((PyF.ofInt color.2.2).mul (pymin (((PyF.ofInt 1).sub
          (fadeProgress (now - start_fade_time))).mul HIT_POINT_BRIGHTNESS_BOOST)
          (.ofInt 1)))),
      rfl, ?_, ?_, ?_, ⟨hl1, hu1⟩, ⟨hl2, hu2⟩, ⟨hl3, hu3⟩⟩
    · exact ha1
    · exact hget
    · show (pyInt _, pyInt _, pyInt _) = _
      rw [he1, he2, he3, hbf_toQ]
  · -- companion entry, fade complete
    intro hprog
    have hcond : PyF.le (.ofInt 1) (fadeProgress (now - start_fade_time)) = true :=
      (fade_done_iff _).mpr hprog
    unfold process_active_points
    try dsimp only
    rw [show ∀ st, processHitEntries now [] st = .ok (st, []) from fun _ => rfl]
    simp only [pbind]
    try dsimp only
    simp only [List.foldl_nil]
    try dsimp only
    unfold processVertEntries
    try dsimp only
    rw [if_pos (show now - start_fade_time ≥ 0 from hel), if_pos hcond]
    obtain ⟨s1, hset, hget, ha1, hv1, hc1, hA1, hB1⟩ :=
      set_pixel_write r c hnh (0, 0, 0) (.ofInt 1)
        (GState.mk sa sb []
          [(((((r : Nat) : Int)), (((c : Nat) : Int))), (color, start_fade_time))] now)
        hA hB
    rw [hset]
    simp only [pbind]
    rw [show ∀ st, processVertEntries now [] st = .ok (st, []) from fun _ => rfl]
    simp only [pbind]
    try dsimp only
    have hrem : List.foldl dictRemove s1.activeVerticalLeds
        [(((r : Nat) : Int), ((c : Nat) : Int))] = [] := by
      rw [show s1.activeVerticalLeds =
          [(((((r : Nat) : Int)), (((c : Nat) : Int))), (color, start_fade_time))] from hv1]
      simp [dictRemove]
    rw [hrem]
    refine ⟨_, rfl, rfl, ?_⟩
    rw [← hscale0]
    exact hget
  · -- companion entry, still fading
    intro hprog
    have hcond : ¬(PyF.le (.ofInt 1) (fadeProgress (now - start_fade_time)) = true) :=
      fun hcd => absurd ((fade_done_iff _).mp hcd) (not_le.mpr hprog)
    have hff_wf : ((PyF.ofInt 1).sub (fadeProgress (now - start_fade_time))).wf :=
      PyF.wf_sub (PyF.wf_ofInt 1) (fadeProgress_wf _)
    have hff_toQ : ((PyF.ofInt 1).sub (fadeProgress (now - start_fade_time))).toQ =
        1 - min 1 (((now - start_fade_time : Int) : ℚ) /
          ((FADE_STEPS * FADE_INTERVAL : Int) : ℚ)) := by
      rw [PyF.toQ_sub (PyF.wf_ofInt 1) (fadeProgress_wf _), fadeProgress_toQ]
      simp only [PyF.toQ_ofInt]
      norm_num
    have hff0 : 0 ≤ ((PyF.ofInt 1).sub (fadeProgress (now - start_fade_time))).toQ := by
      rw [hff_toQ]
      linarith
    have hff1 : ((PyF.ofInt 1).sub (fadeProgress (now - start_fade_time))).toQ ≤ 1 := by
      rw [hff_toQ]
      linarith
    obtain ⟨he1, hl1, hu1⟩ := fade_channel color.1 h1 _ hff_wf hff0 hff1
    obtain ⟨he2, hl2, hu2⟩ := fade_channel color.2.1 h2 _ hff_wf hff0 hff1
    obtain ⟨he3, hl3, hu3⟩ := fade_channel color.2.2 h3 _ hff_wf hff0 hff1
    unfold process_active_points
    try dsimp only
    rw [show ∀ st, processHitEntries now [] st = .ok (st, []) from fun _ => rfl]
    simp only [pbind]
    try dsimp only
    simp only [List.foldl_nil]
    try dsimp only
    unfold processVertEntries
    try dsimp only
    rw [if_pos (show now - start_fade_time ≥ 0 from hel), if_neg hcond]
    obtain ⟨s1, hset, hget, ha1, hv1, hc1, hA1, hB1⟩ :=
      set_pixel_write r c hnh
        (pyInt ((PyF.ofInt color.1).mul ((PyF.ofInt 1).sub
            (fadeProgress (now - start_fade_time)))),
         pyInt ((PyF.ofInt color.2.1).mul ((PyF.ofInt 1).sub
            (fadeProgress (now - start_fade_time)))),
         pyInt ((PyF.ofInt color.2.2).mul ((PyF.ofInt 1).sub
            (fadeProgress (now - start_fade_time)))))
        (.ofInt 1)
        (GState.mk sa sb []
          [(((((r : Nat) : Int)), (((c : Nat) : Int))), (color, start_fade_time))] now)
        hA hB
    rw [hset]
    simp only [pbind]
    rw [show ∀ st, processVertEntries now [] st = .ok (st, []) from fun _ => rfl]
    simp only [pbind]
    try dsimp only
    refine ⟨_,
      (pyInt ((PyF.ofInt color.1).mul ((PyF.ofInt 1).sub
          (fadeProgress (now - start_fade_time)))),
       pyInt ((PyF.ofInt color.2.1).mul ((PyF.ofInt 1).sub
          (fadeProgress (now - start_fade_time)))),
       pyInt ((PyF.ofInt color.2.2).mul ((PyF.ofInt 1).sub
          (fadeProgress (now - start_fade_time))))),
      rfl, ?_, ?_, ?_, ⟨hl1, hu1⟩, ⟨hl2, hu2⟩, ⟨hl3, hu3⟩⟩
    · exact hv1
    · exact hget
    · show (pyInt _, pyInt _, pyInt _) = _
      rw [he1, he2, he3, hff_toQ]

/-- C5 witness: the theorem applied to a single hit-and-companion entry at
cell `(0, 0)`, base color `(200, 100, 50)`, 100 ms into the fade. -/
theorem process_tick_fade_semantics_witness :
    (1 ≤ min 1 ((((100 : Int) - (0 : Int) : Int) : ℚ) / ((FADE_STEPS * FADE_INTERVAL : Int) : ℚ)) →
      ∃ s', process_active_points (GState.mk (List.replicate LED_NUM_A ((0, 0, 0) : Color)) (List.replicate LED_NUM_B ((0, 0, 0) : Color))
          [((((((0 : Fin 16) : Nat) : Int)), ((((0 : Fin 15) : Nat) : Int))), (((200, 100, 50) : Color), (0 : Int)))] [] (100 : Int)) =
          .ok s' ∧
        s'.activeHits = [] ∧
        getPixel s' ((((0 : Fin 16) : Nat) : Int), (((0 : Fin 15) : Nat) : Int)) = some (0, 0, 0)) ∧
    (min 1 ((((100 : Int) - (0 : Int) : Int) : ℚ) / ((FADE_STEPS * FADE_INTERVAL : Int) : ℚ)) < 1 →
      ∃ s' bc, process_active_points (GState.mk (List.replicate LED_NUM_A ((0, 0, 0) : Color)) (List.replicate LED_NUM_B ((0, 0, 0) : Color))
          [((((((0 : Fin 16) : Nat) : Int)), ((((0 : Fin 15) : Nat) : Int))), (((200, 100, 50) : Color), (0 : Int)))] [] (100 : Int)) =
          .ok s' ∧
        s'.activeHits = [((((((0 : Fin 16) : Nat) : Int)), ((((0 : Fin 15) : Nat) : Int))), (((200, 100, 50) : Color), (0 : Int)))] ∧
        getPixel s' ((((0 : Fin 16) : Nat) : Int), (((0 : Fin 15) : Nat) : Int)) = some (scale bc (.ofInt 1)) ∧
        bc = (⌊(((200, 100, 50) : Color).1 : ℚ) * min ((1 - min 1 ((((100 : Int) - (0 : Int) : Int) : ℚ) /
                ((FADE_STEPS * FADE_INTERVAL : Int) : ℚ))) * HIT_POINT_BRIGHTNESS_BOOST.toQ) 1⌋,
              ⌊(((200, 100, 50) : Color).2.1 : ℚ) * min ((1 - min 1 ((((100 : Int) - (0 : Int) : Int) : ℚ) /
                ((FADE_STEPS * FADE_INTERVAL : Int) : ℚ))) * HIT_POINT_BRIGHTNESS_BOOST.toQ) 1⌋,
              ⌊(((200, 100, 50) : Color).2.2 : ℚ) * min ((1 - min 1 ((((100 : Int) - (0 : Int) : Int) : ℚ) /
                ((FADE_STEPS * FADE_INTERVAL : Int) : ℚ))) * HIT_POINT_BRIGHTNESS_BOOST.toQ) 1⌋) ∧
        (0 ≤ bc.1 ∧ bc.1 ≤ 255) ∧ (0 ≤ bc.2.1 ∧ bc.2.1 ≤ 255) ∧
        (0 ≤ bc.2.2 ∧ bc.2.2 ≤ 255)) ∧
    (1 ≤ min 1 ((((100 : Int) - (0 : Int) : Int) : ℚ) / ((FADE_STEPS * FADE_INTERVAL : Int) : ℚ)) →
      ∃ s', process_active_points (GState.mk (List.replicate LED_NUM_A ((0, 0, 0) : Color)) (List.replicate LED_NUM_B ((0, 0, 0) : Color)) []
          [((((((0 : Fin 16) : Nat) : Int)), ((((0 : Fin 15) : Nat) : Int))), (((200, 100, 50) : Color), (0 : Int)))] (100 : Int)) =
          .ok s' ∧
        s'.activeVerticalLeds = [] ∧
        getPixel s' ((((0 : Fin 16) : Nat) : Int), (((0 : Fin 15) : Nat) : Int)) = some (0, 0, 0)) ∧
    (min 1 ((((100 : Int) - (0 : Int) : Int) : ℚ) / ((FADE_STEPS * FADE_INTERVAL : Int) : ℚ)) < 1 →
      ∃ s' fc, process_active_points (GState.mk (List.replicate LED_NUM_A ((0, 0, 0) : Color)) (List.replicate LED_NUM_B ((0, 0, 0) : Color)) []
          [((((((0 : Fin 16) : Nat) : Int)), ((((0 : Fin 15) : Nat) : Int))), (((200, 100, 50) : Color), (0 : Int)))] (100 : Int)) =
          .ok s' ∧
        s'.activeVerticalLeds =
          [((((((0 : Fin 16) : Nat) : Int)), ((((0 : Fin 15) : Nat) : Int))), (((200, 100, 50) : Color), (0 : Int)))] ∧
        getPixel s' ((((0 : Fin 16) : Nat) : Int), (((0 : Fin 15) : Nat) : Int)) = some (scale fc (.ofInt 1)) ∧
        fc = (⌊(((200, 100, 50) : Color).1 : ℚ) * (1 - min 1 ((((100 : Int) - (0 : Int) : Int) : ℚ) /
                ((FADE_STEPS * FADE_INTERVAL : Int) : ℚ)))⌋,
              ⌊(((200, 100, 50) : Color).2.1 : ℚ) * (1 - min 1 ((((100 : Int) - (0 : Int) : Int) : ℚ) /
                ((FADE_STEPS * FADE_INTERVAL : Int) : ℚ)))⌋,
              ⌊(((200, 100, 50) : Color).2.2 : ℚ) * (1 - min 1 ((((100 : Int) - (0 : Int) : Int) : ℚ) /
                ((FADE_STEPS * FADE_INTERVAL : Int) : ℚ)))⌋) ∧
        (0 ≤ fc.1 ∧ fc.1 ≤ 255) ∧ (0 ≤ fc.2.1 ∧ fc.2.1 ≤ 255) ∧
        (0 ≤ fc.2.2 ∧ fc.2.2 ≤ 255)) :=
  process_tick_fade_semantics
    (List.replicate LED_NUM_A ((0, 0, 0) : Color))
    (List.replicate LED_NUM_B ((0, 0, 0) : Color))
    (List.length_replicate _ _) (List.length_replicate _ _)
    0 0 (by decide) ((200, 100, 50) : Color)
    (by decide) (by decide) (by decide) (0 : Int) (100 : Int) (by decide)

lemma thousand_wf : (PyF.ofInt 1000).wf := by
  unfold PyF.ofInt PyF.wf
  norm_num

lemma preprocessHits_ok (rng : Nat → PyF) (hrngwf : ∀ n, (rng n).wf) :
    ∀ (hits : List (List HVal)) (i : Nat) (ct : PyF),
    (∀ h ∈ hits, h.length ≤ 4) → ct.wf →
    ∃ out, preprocessHits rng hits i ct = .ok out ∧
      out.map (fun p => p.2) =
        (hits.filter (fun h => h.length = 4)).map
          (fun h => (h.getD 1 (.int 0), h.getD 2 (.int 0), h.getD 3 (.int 0))) ∧
      ∀ (k : Nat) (hk : k < out.length),
        (out.get ⟨k, hk⟩).1.wf ∧
        (out.get ⟨k, hk⟩).1.toQ =
          ct.toQ + ∑ j ∈ Finset.range (k + 1), (rng (i + j)).toQ * 1000 := by
  intro hits
  induction hits with
  | nil =>
    intro i ct _ _
    exact ⟨[], rfl, rfl, fun k hk => absurd hk (by simp)⟩
  | cons h rest ih =>
    intro i ct hlen hct
    have hrest : ∀ x ∈ rest, x.length ≤ 4 := fun x hx => hlen x (List.mem_cons_of_mem _ hx)
    rcases h with _ | ⟨a, _ | ⟨b, _ | ⟨c, _ | ⟨d, _ | ⟨e, t⟩⟩⟩⟩⟩
    · obtain ⟨out, hpre, hmap, hdue⟩ := ih i ct hrest hct
      refine ⟨out, ?_, ?_, hdue⟩
      · unfold preprocessHits
        rw [if_pos (by simp)]
        exact hpre
      · rw [hmap, List.filter_cons]
        simp
    · obtain ⟨out, hpre, hmap, hdue⟩ := ih i ct hrest hct
      refine ⟨out, ?_, ?_, hdue⟩
      · unfold preprocessHits
        rw [if_pos (by simp)]
        exact hpre
      · rw [hmap, List.filter_cons]
        simp
    · obtain ⟨out, hpre, hmap, hdue⟩ := ih i ct hrest hct
      refine ⟨out, ?_, ?_, hdue⟩
      · unfold preprocessHits
        rw [if_pos (by simp)]
        exact hpre
      · rw [hmap, List.filter_cons]
        simp
    · obtain ⟨out, hpre, hmap, hdue⟩ := ih i ct hrest hct
      refine ⟨out, ?_, ?_, hdue⟩
      · unfold preprocessHits
        rw [if_pos (by simp)]
        exact hpre
      · rw [hmap, List.filter_cons]
        simp
    · -- exactly four fields: the event is retained
      have hdwf : ((rng i).mul (.ofInt 1000)).wf := PyF.wf_mul (hrngwf i) thousand_wf
      have hctwf : (ct.add ((rng i).mul (.ofInt 1000))).wf := PyF.wf_add hct hdwf
      obtain ⟨out, hpre, hmap, hdue⟩ := ih (i + 1) (ct.add ((rng i).mul (.ofInt 1000))) hrest hctwf
      refine ⟨(ct.add ((rng i).mul (.ofInt 1000)), b, c, d) :: out, ?_, ?_, ?_⟩
      · unfold preprocessHits
        try dsimp only
        rw [hpre]
      · rw [List.map_cons, hmap, List.filter_cons]
        simp
      · intro k hk
        cases k with
        | zero =>
          constructor
          · exact hctwf
          · show (ct.add ((rng i).mul (.ofInt 1000))).toQ = _
            rw [PyF.toQ_add hct hdwf, PyF.toQ_mul, PyF.toQ_ofInt, Finset.sum_range_one]
            norm_num
        | succ k' =>
          have hk' : k' < out.length := by
            simp only [List.length_cons] at hk
            omega
          obtain ⟨hwf', htoQ'⟩ := hdue k' hk'
          constructor
          · exact hwf'
          · show (out.get ⟨k', hk'⟩).1.toQ = _
            have hsplit : (∑ j ∈ Finset.range (k' + 1 + 1), (rng (i + j)).toQ * 1000)
                = (rng i).toQ * 1000
                  + ∑ j ∈ Finset.range (k' + 1), (rng (i + 1 + j)).toQ * 1000 := by
              rw [Finset.sum_range_succ' (fun j => (rng (i + j)).toQ * 1000) (k' + 1)]
              rw [show (rng (i + 0)).toQ * 1000 = (rng i).toQ * 1000 from by
                rw [Nat.add_zero]]
              rw [show (∑ j ∈ Finset.range (k' + 1), (rng (i + (j + 1))).toQ * 1000) =
                  ∑ j ∈ Finset.range (k' + 1), (rng (i + 1 + j)).toQ * 1000 from
                Finset.sum_congr rfl (fun j _ => by
                  rw [show i + (j + 1) = i + 1 + j from by omega])]
              ring
            rw [htoQ', PyF.toQ_add hct hdwf, PyF.toQ_mul, PyF.toQ_ofInt, hsplit]
            push_cast
            ring
    · -- more than four fields: contradicts the arity hypothesis
      exfalso
      have hfive := hlen (a :: b :: c :: d :: e :: t) (List.mem_cons_self _ _)
      simp only [List.length_cons] at hfive
      omega

/-- C8 (amended): when every event has at most four fields, preprocessing
skips each short event without raising and retains every 4-field event in
its original order, assigning it the accumulated synthetic due time
`sum of uniform draws * 1000`.  (An event with more than four fields makes
the Python unpacking raise — see the counterexample.) -/
theorem preprocess_skips_short_keeps_quads (hits : List (List HVal)) (rng : Nat → PyF)
    (hrngwf : ∀ n, (rng n).wf) (hlen : ∀ h ∈ hits, h.length ≤ 4) :
    ∃ out, preprocessHits rng hits 0 (.ofInt 0) = .ok out ∧
      out.map (fun p => p.2) =
        (hits.filter (fun h => h.length = 4)).map
          (fun h => (h.getD 1 (.int 0), h.getD 2 (.int 0), h.getD 3 (.int 0))) ∧
      ∀ (k : Nat) (hk : k < out.length),
        (out.get ⟨k, hk⟩).1.toQ = ∑ j ∈ Finset.range (k + 1), (rng j).toQ * 1000 := by
  obtain ⟨out, h1, h2, h3⟩ :=
    preprocessHits_ok rng hrngwf hits 0 (.ofInt 0) hlen (PyF.wf_ofInt 0)
  refine ⟨out, h1, h2, fun k hk => ?_⟩
  have hdue := (h3 k hk).2
  rw [PyF.toQ_ofInt] at hdue
  simpa using hdue

/-- C8 counterexample to the original claim: with a five-field event
present, Python unpacking raises during preprocessing, so not even the
well-formed 4-field event before it is retained. -/
theorem preprocess_extra_field_raises :
    preprocessHits (fun _ => .ofInt 0)
      [[.float (.ofInt 0), .int 0, .int 0, .rgb (255, 0, 0)],
       [.float (.ofInt 0), .int 1, .int 2, .rgb (0, 255, 0), .int 7]] 0 (.ofInt 0) =
      .error "ValueError: too many values to unpack (expected 4)" := by
  decide

/-- C8 witness: the amended theorem applied to a one-field event followed by
a 4-field event. -/
theorem preprocess_skips_short_keeps_quads_witness :
    ∃ out, preprocessHits (fun _ => .ofInt 2)
        [[.int 9], [.float (.ofInt 0), .int 0, .int 0, .rgb (255, 0, 0)]] 0 (.ofInt 0) =
        .ok out ∧
      out.map (fun p => p.2) =
        ([[.int 9], [.float (.ofInt 0), .int 0, .int 0, .rgb (255, 0, 0)]].filter
            (fun h => h.length = 4)).map
          (fun h => (h.getD 1 (.int 0), h.getD 2 (.int 0), h.getD 3 (.int 0))) ∧
      ∀ (k : Nat) (hk : k < out.length),
        (out.get ⟨k, hk⟩).1.toQ =
          ∑ j ∈ Finset.range (k + 1), ((fun _ => PyF.ofInt 2) j).toQ * 1000 :=
  preprocess_skips_short_keeps_quads
    [[.int 9], [.float (.ofInt 0), .int 0, .int 0, .rgb (255, 0, 0)]]
    (fun _ => .ofInt 2)
    (fun _ => by unfold PyF.ofInt PyF.wf; norm_num)
    (by decide)

end Main
